import Mathlib

/-!
# Verification of the LampReasoning orchestration core

Shallow embedding of the two core subsystems of the repository
(`main.py`, `app.py`): the arithmetic-only expression sandbox
(`_validate_ast` / `safe_exec`) and the bounded-retry step runner /
plan driver (`solve_complex_query`, `solve_query_with_steps`,
`solve_query_stream`), together with theorems settling the frozen
claims about them.

Modelling conventions:
* Python numbers are modelled as rationals (`ℚ`); host floating point
  rounding is outside the model, as are non-integer exponents of `**`
  and name resolution through Python builtins (the sandbox executes
  with empty globals, so only scope names and builtins are visible;
  builtins are not modelled).
* Python strings are `String`, `None` is `Value.none`.
* The remote LLM collaborators (code generation, critique, synthesis)
  are opaque oracles: functions from the attempt index and the exact
  arguments the source passes them to `Except String _`, where
  `.error` models a raised request failure.
* A snippet is represented by its parse tree (`Ast`), mirroring the
  node kinds of the host `ast` module that the validator inspects.
-/

namespace LampReasoning

/-! ## Values and the context store -/

/-- A runtime value: a number, a string, or Python `None`. -/
inductive Value where
  | num (q : ℚ)
  | str (s : String)
  | none
deriving DecidableEq, Repr

/-- The shared context (`intermediate_results`): an insertion-ordered
mapping from string keys to values, as a Python `dict` is. -/
abbrev Context := List (String × Value)

/-- `dict` lookup (keys are unique in contexts built by the code;
lookup returns the first binding). -/
def lookupKey : Context → String → Option Value
  | [], _ => Option.none
  | kv :: rest, k => if kv.1 = k then some kv.2 else lookupKey rest k

/-- `dict` assignment: overwrite an existing binding in place,
otherwise append at the end (Python dicts preserve insertion order). -/
def setKey : Context → String → Value → Context
  | [], k, v => [(k, v)]
  | kv :: rest, k, v => if kv.1 = k then (k, v) :: rest else kv :: setKey rest k v

/-- Key membership in a context. -/
def containsKey (ctx : Context) (k : String) : Bool :=
  (lookupKey ctx k).isSome

theorem lookup_setKey_self (ctx : Context) (k : String) (v : Value) :
    lookupKey (setKey ctx k v) k = some v := by
  induction ctx with
  | nil => simp [setKey, lookupKey]
  | cons kv rest ih =>
    by_cases h : kv.1 = k
    · simp [setKey, h, lookupKey]
    · simp [setKey, h, lookupKey, ih]

theorem lookup_setKey_ne (ctx : Context) (k k' : String) (v : Value) (h : k' ≠ k) :
    lookupKey (setKey ctx k v) k' = lookupKey ctx k' := by
  induction ctx with
  | nil => simp [setKey, lookupKey, Ne.symm h]
  | cons kv rest ih =>
    by_cases hk : kv.1 = k
    · have hne : kv.1 ≠ k' := fun he => h (he.symm.trans hk)
      simp [setKey, hk, lookupKey, Ne.symm h, hne]
    · by_cases hk' : kv.1 = k'
      · simp [setKey, hk, lookupKey, hk', h]
      · simp [setKey, hk, lookupKey, hk', ih]

theorem containsKey_setKey (ctx : Context) (k k' : String) (v : Value)
    (h : containsKey ctx k' = true) :
    containsKey (setKey ctx k v) k' = true := by
  by_cases he : k' = k
  · subst he
    simp [containsKey, lookup_setKey_self]
  · simpa [containsKey, lookup_setKey_ne ctx k k' v he] using h

/-! ## Python string primitives used by the orchestration -/

/-- `strStarts s pre` is Python's `s.startswith(pre)` on char lists. -/
def strStarts : List Char → List Char → Bool
  | _, [] => true
  | [], _ :: _ => false
  | c :: cs, p :: ps => c == p && strStarts cs ps

/-- Python `str.startswith`. -/
def pyStartsWith (s pre : String) : Bool := strStarts s.data pre.data

/-- Python `str.endswith`. -/
def pyEndsWith (s suf : String) : Bool := strStarts s.data.reverse suf.data.reverse

/-- Python `str.lower` (ASCII; all strings the code compares are ASCII). -/
def pyLower (s : String) : String := ⟨s.data.map Char.toLower⟩

/-- One pass of Python `str.replace` on char lists: at each position,
if the pattern is a prefix of the remainder, emit the replacement and
skip the pattern, else keep the character.  `pat` is nonempty at every
use site. -/
def pyReplaceL (s pat rep : List Char) : List Char :=
  match s, pat with
  | [], _ => []
  | c :: cs, [] => c :: cs
  | c :: cs, p :: ps =>
    if strStarts (c :: cs) (p :: ps) then
      rep ++ pyReplaceL (List.drop (p :: ps).length (c :: cs)) (p :: ps) rep
    else
      c :: pyReplaceL cs (p :: ps) rep
termination_by s.length
decreasing_by
  · simp only [List.length_drop, List.length_cons]
    omega
  · simp

/-- Python `str.replace` (all occurrences). -/
def pyReplace (s pat rep : String) : String := ⟨pyReplaceL s.data pat.data rep.data⟩

/-! ## The host syntax tree

One constructor per `ast` node kind relevant to the sandbox: the
allowed kinds of `_ALLOWED_AST_NODES` plus representative disallowed
kinds (calls, attribute/index access, string/collection literals,
imports, control flow, the unary operators `+`/`not`).  In the host
(Python ≥ 3.8) numeric, string, boolean and `None` literals all parse
as `ast.Constant`; `isinstance(node, ast.Num)` is true exactly for the
numeric ones, which is why `constNum` is allowed and the other
constants are not. -/
inductive Ast where
  | module (body : List Ast)
  | assign (targets : List Ast) (value : Ast)
  | exprStmt (value : Ast)
  | importStmt (modname : String)
  | ifStmt (test : Ast) (body orelse : List Ast)
  | binop (left op right : Ast)
  | unaryop (op operand : Ast)
  | call (func : Ast) (args : List Ast)
  | attrAccess (value : Ast) (attr : String)
  | subscript (value index : Ast)
  | listLit (elts : List Ast)
  | constNum (val : ℚ)
  | constStr (val : String)
  | constNone
  | constBool (b : Bool)
  | name (id : String) (ctx : Ast)
  | load
  | store
  | add | sub | mult | div | floorDiv | mod | pow | uSub | uAdd | notOp

/-- Direct children of a node, in the field order of the host `ast`
module (the order `ast.iter_child_nodes` yields them in).  Operator
objects (`Add()`, `Load()`, …) are child nodes, which is why they are
listed in the allow-list of the source. -/
def Ast.children : Ast → List Ast
  | .module body => body
  | .assign targets value => targets ++ [value]
  | .exprStmt value => [value]
  | .importStmt _ => []
  | .ifStmt test body orelse => test :: (body ++ orelse)
  | .binop l op r => [l, op, r]
  | .unaryop op operand => [op, operand]
  | .call f args => f :: args
  | .attrAccess v _ => [v]
  | .subscript v i => [v, i]
  | .listLit elts => elts
  | .name _ ctx => [ctx]
  | _ => []

/-- `type(node).__name__` of the host node, as used in the rejection
diagnostic. -/
def nodeName : Ast → String
  | .module _ => "Module"
  | .assign _ _ => "Assign"
  | .exprStmt _ => "Expr"
  | .importStmt _ => "Import"
  | .ifStmt _ _ _ => "If"
  | .binop _ _ _ => "BinOp"
  | .unaryop _ _ => "UnaryOp"
  | .call _ _ => "Call"
  | .attrAccess _ _ => "Attribute"
  | .subscript _ _ => "Subscript"
  | .listLit _ => "List"
  | .constNum _ => "Constant"
  | .constStr _ => "Constant"
  | .constNone => "Constant"
  | .constBool _ => "Constant"
  | .name _ _ => "Name"
  | .load => "Load"
  | .store => "Store"
  | .add => "Add"
  | .sub => "Sub"
  | .mult => "Mult"
  | .div => "Div"
  | .floorDiv => "FloorDiv"
  | .mod => "Mod"
  | .pow => "Pow"
  | .uSub => "USub"
  | .uAdd => "UAdd"
  | .notOp => "Not"

/-- The `isinstance(child, _ALLOWED_AST_NODES)` test of `_validate_ast`
(`ast.Expression`, the eval-mode root, never occurs in an exec-mode
tree and is omitted). -/
def allowedNode : Ast → Bool
  | .module _ => true
  | .assign _ _ => true
  | .binop _ _ _ => true
  | .unaryop _ _ => true
  | .constNum _ => true
  | .name _ _ => true
  | .load => true
  | .store => true
  | .add => true
  | .sub => true
  | .mult => true
  | .div => true
  | .floorDiv => true
  | .mod => true
  | .pow => true
  | .uSub => true
  | _ => false

/-! Number of nodes of a tree / of a forest: used as exact fuel for
the breadth-first walk (a BFS over a forest of `n` nodes dequeues
exactly `n` times). -/

mutual

def nodeCount : Ast → Nat
  | .module body => 1 + nodeCountL body
  | .assign targets value => 1 + nodeCountL targets + nodeCount value
  | .exprStmt v => 1 + nodeCount v
  | .importStmt _ => 1
  | .ifStmt t b o => 1 + nodeCount t + nodeCountL b + nodeCountL o
  | .binop l op r => 1 + nodeCount l + nodeCount op + nodeCount r
  | .unaryop op v => 1 + nodeCount op + nodeCount v
  | .call f args => 1 + nodeCount f + nodeCountL args
  | .attrAccess v _ => 1 + nodeCount v
  | .subscript v i => 1 + nodeCount v + nodeCount i
  | .listLit elts => 1 + nodeCountL elts
  | .name _ c => 1 + nodeCount c
  | _ => 1

def nodeCountL : List Ast → Nat
  | [] => 0
  | a :: as => nodeCount a + nodeCountL as

end

theorem nodeCountL_append (a b : List Ast) :
    nodeCountL (a ++ b) = nodeCountL a + nodeCountL b := by
  induction a with
  | nil => simp [nodeCountL]
  | cons x xs ih => simp [nodeCountL, ih]; omega

theorem nodeCount_pos (t : Ast) : 1 ≤ nodeCount t := by
  cases t <;> simp [nodeCount] <;> omega

theorem nodeCount_children (t : Ast) : nodeCount t = 1 + nodeCountL t.children := by
  cases t <;>
    simp [nodeCount, nodeCountL, Ast.children, nodeCountL_append] <;>
    omega

/-- Breadth-first traversal over a worklist, exactly as `ast.walk`
does (pop from the front, push children at the back).  The fuel is
structural bookkeeping only; `bfsWalkF_adequate` below shows that with
fuel at least the node count the traversal is fuel-independent, i.e.
it never truncates. -/
def bfsWalkF : Nat → List Ast → List Ast
  | _, [] => []
  | 0, _ :: _ => []
  | fuel + 1, t :: q => t :: bfsWalkF fuel (q ++ t.children)

theorem bfsWalkF_adequate (fuel : Nat) :
    ∀ l : List Ast, nodeCountL l ≤ fuel → bfsWalkF fuel l = bfsWalkF (nodeCountL l) l := by
  induction fuel with
  | zero =>
    intro l h
    cases l with
    | nil => rfl
    | cons t q =>
      exfalso
      have := nodeCount_pos t
      simp [nodeCountL] at h
      omega
  | succ f ih =>
    intro l h
    cases l with
    | nil => rfl
    | cons t q =>
      have hm : nodeCountL (t :: q) = nodeCountL (q ++ t.children) + 1 := by
        simp [nodeCountL, nodeCountL_append, nodeCount_children t]
        omega
      rw [hm]
      show t :: bfsWalkF f (q ++ t.children) =
        t :: bfsWalkF (nodeCountL (q ++ t.children)) (q ++ t.children)
      have hle : nodeCountL (q ++ t.children) ≤ f := by omega
      rw [ih _ hle]

/-- `ast.walk(node)`: the node itself and all descendants in BFS order. -/
def walk (t : Ast) : List Ast := bfsWalkF (nodeCount t) [t]

/-- `_validate_ast`: scan `ast.walk` order for the first node that is
not an instance of an allowed kind. -/
def firstDisallowed (t : Ast) : Option Ast :=
  (walk t).find? (fun n => !allowedNode n)

/-- `_validate_ast` as a fallible check: `.error` is the raised
`ValueError`'s message. -/
def validate (t : Ast) : Except String Unit :=
  match firstDisallowed t with
  | some bad => .error ("Disallowed Python syntax: " ++ nodeName bad)
  | Option.none => .ok ()

/-! ## Evaluation of a validated tree -/

/-- The local evaluation environment (`local_scope`). -/
abbrev Scope := String → Option Value

/-- Binding update in the scope. -/
def updateScope (σ : Scope) (k : String) (v : Value) : Scope :=
  fun k' => if k' = k then some v else σ k'

/-- Apply a binary operator.  Division-family operators fault on a
zero right operand (Python `ZeroDivisionError`); `+` concatenates
strings; other operand-type mixtures fault (Python `TypeError`).
Non-integer exponents of `**` lie outside the rational value model and
are reported as faults. -/
def binApply (op : Ast) (a b : Value) : Except String Value :=
  match op, a, b with
  | .add, .num x, .num y => .ok (.num (x + y))
  | .add, .str x, .str y => .ok (.str (x ++ y))
  | .sub, .num x, .num y => .ok (.num (x - y))
  | .mult, .num x, .num y => .ok (.num (x * y))
  | .div, .num x, .num y =>
    if y = 0 then .error "division by zero" else .ok (.num (x / y))
  | .floorDiv, .num x, .num y =>
    if y = 0 then .error "division by zero" else .ok (.num (⌊x / y⌋ : ℤ))
  | .mod, .num x, .num y =>
    if y = 0 then .error "division by zero"
    else .ok (.num (x - y * (⌊x / y⌋ : ℤ)))
  | .pow, .num x, .num y =>
    if y.den = 1 then
      if x = 0 ∧ y.num < 0 then .error "0.0 cannot be raised to a negative power"
      else .ok (.num (x ^ y.num))
    else .error "non-integer exponent outside the rational model"
  | _, _, _ => .error "unsupported operand type(s)"

/-- Apply a unary operator (only `-` acts on values; `+`/`not` never
survive validation). -/
def unApply (op : Ast) (a : Value) : Except String Value :=
  match op, a with
  | .uSub, .num x => .ok (.num (-x))
  | _, _ => .error "bad operand type for unary operator"

/-- Evaluate an expression node.  Constructs that cannot survive
validation fault; name lookup that misses the scope faults
(`NameError`; the snippet executes with empty globals and builtins are
not modelled). -/
def evalExpr (σ : Scope) : Ast → Except String Value
  | .constNum q => .ok (.num q)
  | .constStr s => .ok (.str s)
  | .constNone => .ok Value.none
  | .name id _ =>
    match σ id with
    | some v => .ok v
    | Option.none => .error ("name '" ++ id ++ "' is not defined")
  | .binop l op r =>
    match evalExpr σ l with
    | .error e => .error e
    | .ok a =>
      match evalExpr σ r with
      | .error e => .error e
      | .ok b => binApply op a b
  | .unaryop op operand =>
    match evalExpr σ operand with
    | .error e => .error e
    | .ok v => unApply op v
  | _ => .error "unsupported expression"

/-- Store the assigned value under every target name, left to right. -/
def assignTargets (σ : Scope) (targets : List Ast) (v : Value) : Except String Scope :=
  match targets with
  | [] => .ok σ
  | .name id _ :: rest => assignTargets (updateScope σ id v) rest v
  | _ :: _ => .error "unsupported assignment target"

/-- Execute one statement. -/
def execStmt (σ : Scope) : Ast → Except String Scope
  | .assign targets value =>
    match evalExpr σ value with
    | .error e => .error e
    | .ok v => assignTargets σ targets v
  | _ => .error "unsupported statement"

/-- Execute a statement list in order. -/
def execBody (σ : Scope) : List Ast → Except String Scope
  | [] => .ok σ
  | s :: rest =>
    match execStmt σ s with
    | .error e => .error e
    | .ok σ' => execBody σ' rest

/-- Execute a module root. -/
def execModule (σ : Scope) : Ast → Except String Scope
  | .module body => execBody σ body
  | _ => .error "not a module"

/-- The initial scope of `safe_exec`: a shallow copy of the context
with the output binding `result` (re)initialised to `None`. -/
def initScope (context : Context) : Scope :=
  fun k => if k = "result" then some Value.none else lookupKey context k

/-- `safe_exec`: validate, then execute with the pre-populated scope
and read back `result`; every fault is caught and folded into an
`"EXECUTION_ERROR: …"` string, which is the error tag of an Outcome. -/
def safe_exec (tree : Ast) (context : Context) : Value :=
  match validate tree with
  | .error msg => .str ("EXECUTION_ERROR: " ++ msg)
  | .ok () =>
    match execModule (initScope context) tree with
    | .error e => .str ("EXECUTION_ERROR: " ++ e)
    | .ok σ => (σ "result").getD Value.none

/-- The orchestration's test for an execution-error Outcome:
`isinstance(output, str) and output.startswith("EXECUTION_ERROR")`. -/
def isExecError (v : Value) : Bool :=
  match v with
  | .str s => pyStartsWith s "EXECUTION_ERROR"
  | _ => false

/-- Whether executing the tree in `safe_exec`'s initial scope
succeeds (used to phrase hypotheses decidably). -/
def execOk (tree : Ast) (context : Context) : Bool :=
  match execModule (initScope context) tree with
  | .ok _ => true
  | .error _ => false

/-! ## Helper lemmas about the sandbox -/

theorem strStarts_append (p q : List Char) : strStarts (p ++ q) p = true := by
  induction p with
  | nil => cases q <;> rfl
  | cons c cs ih => simp [strStarts, ih]

theorem isExecError_msg (msg : String) :
    isExecError (.str ("EXECUTION_ERROR: " ++ msg)) = true := by
  show strStarts ("EXECUTION_ERROR: " ++ msg).data "EXECUTION_ERROR".data = true
  rw [String.data_append]
  have hsplit : ("EXECUTION_ERROR: " : String).data =
      ("EXECUTION_ERROR" : String).data ++ [':', ' '] := by rfl
  rw [hsplit, List.append_assoc]
  exact strStarts_append _ _

/-- Whether one assignment target is the name `result`. -/
def targetIsResult : Ast → Bool
  | .name id _ => id == "result"
  | _ => false

/-- Whether a statement assigns to `result`. -/
def stmtAssignsResult : Ast → Bool
  | .assign targets _ => targets.any targetIsResult
  | _ => false

/-- Whether any statement of a module assigns to `result`. -/
def assignsResult : Ast → Bool
  | .module body => body.any stmtAssignsResult
  | _ => false

theorem assignTargets_preserve (targets : List Ast) (σ σ' : Scope) (v : Value)
    (h : assignTargets σ targets v = .ok σ')
    (hna : targets.any targetIsResult = false) :
    σ' "result" = σ "result" := by
  induction targets generalizing σ with
  | nil =>
    simp only [assignTargets] at h
    cases h
    rfl
  | cons tg rest ih =>
    simp only [List.any_cons, Bool.or_eq_false_iff] at hna
    cases tg with
    | name id c =>
      simp only [assignTargets] at h
      have hr := ih _ h hna.2
      rw [hr]
      have hid : ("result" : String) ≠ id := by
        intro he
        have hres : targetIsResult (.name id c) = true := by
          simp [targetIsResult, ← he]
        rw [hna.1] at hres
        exact Bool.false_ne_true hres
      simp [updateScope, hid]
    | _ => simp [assignTargets] at h

theorem execStmt_preserve (s : Ast) (σ σ' : Scope)
    (h : execStmt σ s = .ok σ')
    (hna : stmtAssignsResult s = false) :
    σ' "result" = σ "result" := by
  cases s with
  | assign targets value =>
    simp only [execStmt] at h
    simp only [stmtAssignsResult] at hna
    cases hv : evalExpr σ value with
    | error e => rw [hv] at h; exact absurd h (by simp)
    | ok v =>
      rw [hv] at h
      exact assignTargets_preserve targets σ σ' v h hna
  | _ => simp [execStmt] at h

theorem execBody_preserve (body : List Ast) (σ σ' : Scope)
    (h : execBody σ body = .ok σ')
    (hna : body.any stmtAssignsResult = false) :
    σ' "result" = σ "result" := by
  induction body generalizing σ with
  | nil =>
    simp only [execBody] at h
    cases h
    rfl
  | cons s rest ih =>
    simp only [List.any_cons, Bool.or_eq_false_iff] at hna
    simp only [execBody] at h
    cases hs : execStmt σ s with
    | error e => rw [hs] at h; exact absurd h (by simp)
    | ok σ₁ =>
      rw [hs] at h
      rw [ih _ h hna.2]
      exact execStmt_preserve s σ σ₁ hs hna.1

/-! ## C1: every tree containing a disallowed construct is rejected
before evaluation, with a diagnostic naming the first such construct -/

/-- C1.  If the syntax tree of a snippet contains any construct outside
the allow-list, `safe_exec` returns an execution-error Outcome whose
diagnostic names the first disallowed construct in `ast.walk` order,
without evaluating anything (the evaluator is never consulted), and it
never raises: `safe_exec` is a total function into Outcomes. -/
theorem c1_reject_disallowed (t : Ast) (ctx : Context)
    (h : ∃ n ∈ walk t, allowedNode n = false) :
    ∃ bad, bad ∈ walk t ∧ allowedNode bad = false ∧
      firstDisallowed t = some bad ∧
      safe_exec t ctx = .str ("EXECUTION_ERROR: Disallowed Python syntax: " ++ nodeName bad) ∧
      isExecError (safe_exec t ctx) = true := by
  obtain ⟨n, hmem, hn⟩ := h
  have hsome : ((walk t).find? (fun n => !allowedNode n)).isSome :=
    List.find?_isSome.mpr ⟨n, hmem, by simp [hn]⟩
  obtain ⟨bad, hb⟩ := Option.isSome_iff_exists.mp hsome
  have hbadp := List.find?_some hb
  simp only [Bool.not_eq_true'] at hbadp
  have hbadmem : bad ∈ walk t := List.mem_of_find?_eq_some hb
  have hfd : firstDisallowed t = some bad := hb
  have hval : validate t = .error ("Disallowed Python syntax: " ++ nodeName bad) := by
    simp [validate, hfd]
  have hse : safe_exec t ctx =
      .str ("EXECUTION_ERROR: " ++ ("Disallowed Python syntax: " ++ nodeName bad)) := by
    simp [safe_exec, hval]
  refine ⟨bad, hbadmem, hbadp, hfd, ?_, ?_⟩
  · rw [hse, ← String.append_assoc]
    have hlit : ("EXECUTION_ERROR: " : String) ++ "Disallowed Python syntax: " =
        "EXECUTION_ERROR: Disallowed Python syntax: " := by decide
    rw [hlit]
  · rw [hse]
    exact isExecError_msg _

/-- Closed witness for C1: the canonical escape attempt
`result = __import__('os')` contains a call expression; the sandbox
rejects the snippet with an execution-error Outcome. -/
theorem c1_reject_disallowed_witness :
    (∃ n ∈ walk (.module [.assign [.name "result" .store]
        (.call (.name "__import__" .load) [.constStr "os"])]),
      allowedNode n = false) ∧
    isExecError (safe_exec (.module [.assign [.name "result" .store]
        (.call (.name "__import__" .load) [.constStr "os"])]) []) = true := by
  have h : ∃ n ∈ walk (.module [.assign [.name "result" .store]
      (.call (.name "__import__" .load) [.constStr "os"])]),
      allowedNode n = false := by decide
  obtain ⟨bad, _, _, _, _, herr⟩ :=
    c1_reject_disallowed (.module [.assign [.name "result" .store]
      (.call (.name "__import__" .load) [.constStr "os"])]) [] h
  exact ⟨h, herr⟩

/-! ## C7: an unassigned output binding yields `None`, not an error -/

/-- C7.  For a snippet accepted by the validator whose evaluation
completes without a runtime fault and that never assigns `result`,
`safe_exec` returns the null value `None`, which is not an
execution-error Outcome. -/
theorem c7_unassigned_result_is_none (t : Ast) (ctx : Context)
    (hv : validate t = .ok ())
    (hex : execOk t ctx = true)
    (hna : assignsResult t = false) :
    safe_exec t ctx = Value.none ∧ isExecError (safe_exec t ctx) = false := by
  have hm : ∃ σ, execModule (initScope ctx) t = .ok σ := by
    unfold execOk at hex
    cases hme : execModule (initScope ctx) t with
    | ok σ => exact ⟨σ, rfl⟩
    | error e => rw [hme] at hex; simp at hex
  obtain ⟨σ, hm⟩ := hm
  have hres : σ "result" = some Value.none := by
    cases t with
    | module body =>
      simp only [execModule] at hm
      simp only [assignsResult] at hna
      rw [execBody_preserve body _ _ hm hna]
      simp [initScope]
    | _ => simp [execModule] at hm
  have hse : safe_exec t ctx = Value.none := by
    simp [safe_exec, hv, hm, hres]
  exact ⟨hse, by rw [hse]; rfl⟩

/-- Closed witness for C7: `x = 5` is validated, executes, and never
assigns `result`; the Outcome is `None`. -/
theorem c7_unassigned_result_is_none_witness :
    safe_exec (.module [.assign [.name "x" .store] (.constNum 5)]) [] = Value.none ∧
    isExecError (safe_exec (.module [.assign [.name "x" .store] (.constNum 5)]) []) = false :=
  c7_unassigned_result_is_none (.module [.assign [.name "x" .store] (.constNum 5)]) []
    (by rfl) (by decide) (by decide)

/-! ## C8: determinism and statelessness of `safe_exec` -/

/-- A sequence of sandbox calls: each call is evaluated independently,
no state is threaded between them (in the source, each call builds a
fresh `local_scope` and executes with empty globals). -/
def safe_exec_seq (calls : List (Ast × Context)) : List Value :=
  calls.map (fun c => safe_exec c.1 c.2)

/-- C8.  `safe_exec` is deterministic and stateless: in any two call
sequences, any two calls given identical snippet and scope return
identical Outcomes, and each call's Outcome is a function of that
call's input alone, independent of the calls preceding it. -/
theorem c8_deterministic_stateless (calls₁ calls₂ : List (Ast × Context))
    (i j : Nat) (t : Ast) (ctx : Context)
    (h₁ : calls₁[i]? = some (t, ctx)) (h₂ : calls₂[j]? = some (t, ctx)) :
    (safe_exec_seq calls₁)[i]? = some (safe_exec t ctx) ∧
    (safe_exec_seq calls₁)[i]? = (safe_exec_seq calls₂)[j]? := by
  have e₁ : (safe_exec_seq calls₁)[i]? = some (safe_exec t ctx) := by
    simp [safe_exec_seq, List.getElem?_map, h₁]
  have e₂ : (safe_exec_seq calls₂)[j]? = some (safe_exec t ctx) := by
    simp [safe_exec_seq, List.getElem?_map, h₂]
  exact ⟨e₁, e₁.trans e₂.symm⟩

/-- Closed witness for C8: the same snippet/scope pair at different
positions of different call histories produces the same Outcome. -/
theorem c8_deterministic_stateless_witness :
    ([((.module [.assign [.name "result" .store] (.constNum 7)] : Ast), ([] : Context))][0]? =
      some ((.module [.assign [.name "result" .store] (.constNum 7)] : Ast), ([] : Context))) ∧
    (safe_exec_seq [((.module [.assign [.name "result" .store] (.constNum 7)] : Ast), ([] : Context))])[0]? =
      some (safe_exec (.module [.assign [.name "result" .store] (.constNum 7)]) []) := by
  refine ⟨rfl, ?_⟩
  exact (c8_deterministic_stateless
    [((.module [.assign [.name "result" .store] (.constNum 7)] : Ast), ([] : Context))]
    [((.module [.assign [.name "result" .store] (.constNum 7)] : Ast), ([] : Context))]
    0 0 _ [] rfl rfl).1

/-! ## Numeric-token extraction

`re.findall(r'\d+(?:\.\d+)?', feedback)` of the blocking loops
(`main.py`, `solve_query_with_steps`): leftmost non-overlapping
matches, greedy digit runs with an optional fractional part.  The fuel
is structural bookkeeping: each step advances at least one character,
so fuel equal to the string length never truncates. -/
def findNumsF : Nat → List Char → List (List Char)
  | _, [] => []
  | 0, _ :: _ => []
  | fuel + 1, c :: cs =>
    if c.isDigit then
      let ds := (c :: cs).takeWhile Char.isDigit
      let rest := (c :: cs).dropWhile Char.isDigit
      match rest with
      | '.' :: r2 =>
        match r2.takeWhile Char.isDigit with
        | [] => ds :: findNumsF fuel rest
        | f :: fs => (ds ++ '.' :: f :: fs) :: findNumsF fuel (r2.dropWhile Char.isDigit)
      | _ => ds :: findNumsF fuel rest
    else findNumsF fuel cs

/-- `re.findall(r'\d+(?:\.\d+)?', s)` as a list of matched tokens. -/
def findNumbers (s : String) : List String :=
  (findNumsF s.data.length s.data).map (fun l => ⟨l⟩)

/-- The regex of the streaming loop (`solve_query_stream`), written
there as `r'\\d+(?:\\.\\d+)?'` — a *raw* string, so the pattern the
regex engine sees is: literal backslash, one or more literal `d`s,
optionally (literal backslash, any character, literal backslash, one
or more literal `d`s).  It matches backslash sequences, not numbers. -/
def findNumsStreamF : Nat → List Char → List (List Char)
  | _, [] => []
  | 0, _ :: _ => []
  | fuel + 1, c :: cs =>
    if c = '\\' then
      match cs.takeWhile (fun x => x == 'd') with
      | [] => findNumsStreamF fuel cs
      | d :: ds =>
        let rest := cs.dropWhile (fun x => x == 'd')
        match rest with
        | '\\' :: x :: '\\' :: r3 =>
          if x = '\n' then ('\\' :: d :: ds) :: findNumsStreamF fuel rest
          else
            match r3.takeWhile (fun y => y == 'd') with
            | [] => ('\\' :: d :: ds) :: findNumsStreamF fuel rest
            | e :: es =>
              ('\\' :: (d :: ds) ++ '\\' :: x :: '\\' :: e :: es) ::
                findNumsStreamF fuel (r3.dropWhile (fun y => y == 'd'))
        | _ => ('\\' :: d :: ds) :: findNumsStreamF fuel rest
    else findNumsStreamF fuel cs

/-- `re.findall` for the streaming loop's (escaped) pattern. -/
def findNumbersStream (s : String) : List String :=
  (findNumsStreamF s.data.length s.data).map (fun l => ⟨l⟩)

/-- Numeric value of a digit run. -/
def digitsToNat (l : List Char) : Nat :=
  l.foldl (fun a c => a * 10 + (c.toNat - 48)) 0

/-- Python `float()` on a matched token (`digits` or
`digits.digits`, the only shapes the extraction regex produces). -/
def pyFloat (s : String) : ℚ :=
  let ip := s.data.takeWhile Char.isDigit
  let rest := s.data.dropWhile Char.isDigit
  match rest with
  | '.' :: fp =>
    (digitsToNat ip : ℚ) +
      (digitsToNat (fp.takeWhile Char.isDigit) : ℚ) /
        (10 : ℚ) ^ (fp.takeWhile Char.isDigit).length
  | _ => (digitsToNat ip : ℚ)

/-! ## The step runner -/

/-- `MAX_CRITIQUE_ATTEMPTS` of `main.py`. -/
def MAX_CRITIQUE_ATTEMPTS : Nat := 3

/-- `f"step_{num}_result"`. -/
def stepKey (num : Nat) : String := "step_" ++ toString num ++ "_result"

/-- The expected-values hint built before the critique call: context
entries whose key starts with `step_` and ends with `_result` and
whose value is not the failure sentinel, re-keyed by
`key.replace("_result", "")`, assembled into a fresh dict. -/
def expectedValuesOf (ctx : Context) : List (String × Value) :=
  ctx.foldl
    (fun acc kv =>
      if pyStartsWith kv.1 "step_" && pyEndsWith kv.1 "_result" &&
          !(kv.2 == Value.str "FAILED_TO_REFINE") then
        setKey acc (pyReplace kv.1 "_result" "") kv.2
      else acc)
    []

/-- The error text carried by an error Outcome. -/
def errText : Value → String
  | .str s => s
  | _ => ""

/-- Python `str(output)` as passed to the critique collaborator
(decimal formatting of the host is approximated; the critique oracle
is universally quantified over this argument in every theorem). -/
def pyStr : Value → String
  | .num q => if q.den = 1 then toString q.num else toString q
  | .str s => s
  | .none => "None"

/-- One attempt's record, as assembled by the orchestration loops
(`attempt` is 1-based, as in `attempt_data`). -/
structure AttemptRec where
  attempt : Nat
  code : Ast
  output : Value
  feedback : String
  success : Bool

/-- Observable interactions of one step run: which remote calls were
made (attempt numbers are 1-based, matching `AttemptRec.attempt`) and
with what context the generation collaborator was called. -/
inductive Event where
  | genCall (attempt : Nat) (ctx : Context)
  | critCall (attempt : Nat)
deriving DecidableEq

/-- The remote code-generation collaborator
(`generate_code_for_step(desc, intermediate_results)`): an oracle from
the attempt index and the arguments the source passes to either a
snippet parse tree or a raised failure.  The attempt index models the
nondeterminism of the remote service across calls. -/
abbrev GenOracle := Nat → String → Context → Except String Ast

/-- The remote critique collaborator
(`self_critique_output(desc, str(output), query, expected_values)`). -/
abbrev CritOracle := Nat → String → String → String → List (String × Value) → Except String String

/-- The feedback of one attempt: synthesized locally for an
execution-error Outcome, otherwise obtained from the remote critique
collaborator. -/
def attemptFeedback (critO : CritOracle) (attempt : Nat) (desc query : String)
    (ctx : Context) (output : Value) : Except String String :=
  if isExecError output then .ok ("Execution failed: " ++ errText output)
  else critO attempt desc (pyStr output) query (expectedValuesOf ctx)

/-- Context update on a rejected attempt: overwrite `last_feedback`;
if the feedback starts with the rejection marker and contains a
numeric token, overwrite `expected_correction` with the last one. -/
def rejectionCtx (extract : String → List String) (feedback : String) (ctx : Context) : Context :=
  let ctx1 := setKey ctx "last_feedback" (.str feedback)
  if pyStartsWith feedback "Incorrect:" then
    match (extract feedback).getLast? with
    | some tok => setKey ctx1 "expected_correction" (.num (pyFloat tok))
    | Option.none => ctx1
  else ctx1

/-- The event log of a single attempt. -/
def attemptEvents (attempt : Nat) (ctx : Context) (output : Value) : List Event :=
  Event.genCall (attempt + 1) ctx ::
    (if isExecError output then [] else [Event.critCall (attempt + 1)])

/-- The retry loop of the Step Runner, shared verbatim by the three
orchestration loops except for the numeric-extraction regex
(`extract`).  `attempt` is the 0-based loop counter, `r` the number of
attempts still available.  Returns the updated context, the attempt
records, and the event log; a raised generation or critique failure
propagates as `.error`. -/
def runStepAuxW (extract : String → List String) (genO : GenOracle) (critO : CritOracle)
    (query desc : String) (num : Nat) :
    Nat → Nat → Context → Except String (Context × List AttemptRec × List Event)
  | _, 0, ctx => .ok (setKey ctx (stepKey num) (.str "FAILED_TO_REFINE"), [], [])
  | attempt, r + 1, ctx =>
    match genO attempt desc ctx with
    | .error e => .error e
    | .ok code =>
      let output := safe_exec code ctx
      match attemptFeedback critO attempt desc query ctx output with
      | .error e => .error e
      | .ok feedback =>
        let success := pyStartsWith (pyLower feedback) "correct"
        let arec : AttemptRec := ⟨attempt + 1, code, output, feedback, success⟩
        if success then
          .ok (setKey ctx (stepKey num) output, [arec], attemptEvents attempt ctx output)
        else
          match runStepAuxW extract genO critO query desc num (attempt + 1) r
              (rejectionCtx extract feedback ctx) with
          | .error e => .error e
          | .ok (ctx', tr, ev) =>
            .ok (ctx', arec :: tr, attemptEvents attempt ctx output ++ ev)

/-- The Step Runner of the blocking loops (`solve_complex_query`,
`solve_query_with_steps`): correct extraction regex, 3 attempts. -/
def runStep (genO : GenOracle) (critO : CritOracle) (query desc : String)
    (num : Nat) (ctx : Context) : Except String (Context × List AttemptRec × List Event) :=
  runStepAuxW findNumbers genO critO query desc num 0 MAX_CRITIQUE_ATTEMPTS ctx

/-- The Step Runner of the streaming loop (`solve_query_stream`):
identical except for the double-escaped extraction regex. -/
def runStepStream (genO : GenOracle) (critO : CritOracle) (query desc : String)
    (num : Nat) (ctx : Context) : Except String (Context × List AttemptRec × List Event) :=
  runStepAuxW findNumbersStream genO critO query desc num 0 MAX_CRITIQUE_ATTEMPTS ctx

/-! ## The plan driver -/

/-- One step of a decomposition plan. -/
structure Step where
  step_num : Nat
  type : String
  description : String
deriving DecidableEq, Repr

/-- The observable record of one processed plan step. -/
structure StepRes where
  step : Step
  ctxBefore : Context
  ctxAfter : Context
  trace : List AttemptRec
  events : List Event

/-- Per-step generation oracle of a whole plan run (first index: the
position of the step in the plan). -/
abbrev PlanGenOracle := Nat → GenOracle

/-- Per-step critique oracle of a whole plan run. -/
abbrev PlanCritOracle := Nat → CritOracle

/-- The synthesis collaborator (`synthesize_answer(query, final_results)`). -/
abbrev SynthOracle := String → Context → Except String String

/-- The plan loop of `solve_complex_query`: `calculation` and
`data_lookup` steps run the Step Runner on the threaded context;
`final_synthesis` and unknown kinds are skipped without touching it. -/
def runPlanAux (genO : PlanGenOracle) (critO : PlanCritOracle) (query : String) :
    Nat → List Step → Context → Except String (Context × List StepRes)
  | _, [], ctx => .ok (ctx, [])
  | i, st :: rest, ctx =>
    if st.type == "calculation" || st.type == "data_lookup" then
      match runStep (genO i) (critO i) query st.description st.step_num ctx with
      | .error e => .error e
      | .ok (ctx', tr, ev) =>
        match runPlanAux genO critO query (i + 1) rest ctx' with
        | .error e => .error e
        | .ok (ctxF, rs) => .ok (ctxF, ⟨st, ctx, ctx', tr, ev⟩ :: rs)
    else
      match runPlanAux genO critO query (i + 1) rest ctx with
      | .error e => .error e
      | .ok (ctxF, rs) => .ok (ctxF, ⟨st, ctx, ctx, [], []⟩ :: rs)

/-- The Plan Driver: run every step on an initially empty context,
then call the synthesis collaborator with the full accumulated
context.  The returned context is exactly the one synthesis received. -/
def runPlan (genO : PlanGenOracle) (critO : PlanCritOracle) (synthO : SynthOracle)
    (query : String) (steps : List Step) :
    Except String (Context × List StepRes × String) :=
  match runPlanAux genO critO query 0 steps [] with
  | .error e => .error e
  | .ok (ctxF, rs) =>
    match synthO query ctxF with
    | .error e => .error e
    | .ok ans => .ok (ctxF, rs, ans)

/-! ## Inversion and invariants of the retry loop -/

/-- Inversion of one successful iteration of the retry loop. -/
theorem runStepAuxW_ok_succ
    (extract : String → List String) (genO : GenOracle) (critO : CritOracle)
    (query desc : String) (num a r : Nat) (ctx ctx' : Context)
    (tr : List AttemptRec) (ev : List Event)
    (h : runStepAuxW extract genO critO query desc num a (r + 1) ctx = .ok (ctx', tr, ev)) :
    ∃ code feedback,
      genO a desc ctx = .ok code ∧
      attemptFeedback critO a desc query ctx (safe_exec code ctx) = .ok feedback ∧
      ((pyStartsWith (pyLower feedback) "correct" = true ∧
        ctx' = setKey ctx (stepKey num) (safe_exec code ctx) ∧
        tr = [⟨a + 1, code, safe_exec code ctx, feedback, true⟩] ∧
        ev = attemptEvents a ctx (safe_exec code ctx)) ∨
       (pyStartsWith (pyLower feedback) "correct" = false ∧
        ∃ c2 t2 e2,
          runStepAuxW extract genO critO query desc num (a + 1) r
            (rejectionCtx extract feedback ctx) = .ok (c2, t2, e2) ∧
          ctx' = c2 ∧
          tr = ⟨a + 1, code, safe_exec code ctx, feedback, false⟩ :: t2 ∧
          ev = attemptEvents a ctx (safe_exec code ctx) ++ e2)) := by
  simp only [runStepAuxW] at h
  split at h
  · exact absurd h (by simp)
  · rename_i code hg
    split at h
    · exact absurd h (by simp)
    · rename_i feedback hf
      split at h
      · rename_i hs
        refine ⟨code, feedback, hg, hf, Or.inl ?_⟩
        cases h
        exact ⟨hs, rfl, by rw [hs], rfl⟩
      · rename_i hs
        have hs' : pyStartsWith (pyLower feedback) "correct" = false := by
          simpa using hs
        split at h
        · exact absurd h (by simp)
        · rename_i hrec
          cases h
          exact ⟨code, feedback, hg, hf,
            Or.inr ⟨hs', _, _, _, hrec, rfl, by rw [hs'], rfl⟩⟩

/-- The success flag of every attempt record is exactly the
case-insensitive `correct`-prefix test of its feedback. -/
theorem runStepAuxW_success_flag
    (extract : String → List String) (genO : GenOracle) (critO : CritOracle)
    (query desc : String) (num : Nat) :
    ∀ r a ctx ctx' tr ev,
      runStepAuxW extract genO critO query desc num a r ctx = .ok (ctx', tr, ev) →
      ∀ rec ∈ tr, rec.success = pyStartsWith (pyLower rec.feedback) "correct" := by
  intro r
  induction r with
  | zero =>
    intro a ctx ctx' tr ev h rec hrec
    simp only [runStepAuxW] at h
    cases h
    simp at hrec
  | succ r ih =>
    intro a ctx ctx' tr ev h rec hrec
    obtain ⟨code, feedback, _, _, hcase⟩ :=
      runStepAuxW_ok_succ extract genO critO query desc num a r ctx ctx' tr ev h
    cases hcase with
    | inl hacc =>
      obtain ⟨hs, _, htr, _⟩ := hacc
      rw [htr] at hrec
      simp at hrec
      rw [hrec, hs]
    | inr hrej =>
      obtain ⟨hs, c2, t2, e2, hrec2, _, htr, _⟩ := hrej
      rw [htr] at hrec
      rcases List.mem_cons.mp hrec with he | he
      · rw [he, hs]
      · exact ih (a + 1) _ c2 t2 e2 hrec2 rec he

/-- At most `r` attempt records are produced. -/
theorem runStepAuxW_length
    (extract : String → List String) (genO : GenOracle) (critO : CritOracle)
    (query desc : String) (num : Nat) :
    ∀ r a ctx ctx' tr ev,
      runStepAuxW extract genO critO query desc num a r ctx = .ok (ctx', tr, ev) →
      tr.length ≤ r := by
  intro r
  induction r with
  | zero =>
    intro a ctx ctx' tr ev h
    simp only [runStepAuxW] at h
    cases h
    simp
  | succ r ih =>
    intro a ctx ctx' tr ev h
    obtain ⟨code, feedback, _, _, hcase⟩ :=
      runStepAuxW_ok_succ extract genO critO query desc num a r ctx ctx' tr ev h
    cases hcase with
    | inl hacc =>
      rw [hacc.2.2.1]
      simp
    | inr hrej =>
      obtain ⟨_, c2, t2, e2, hrec2, _, htr, _⟩ := hrej
      rw [htr]
      simpa using ih (a + 1) _ c2 t2 e2 hrec2

/-- An accepted attempt is the last one: the loop stops immediately
and the accepted Outcome is recorded under the step key. -/
theorem runStepAuxW_accept_last
    (extract : String → List String) (genO : GenOracle) (critO : CritOracle)
    (query desc : String) (num : Nat) :
    ∀ r a ctx ctx' tr ev,
      runStepAuxW extract genO critO query desc num a r ctx = .ok (ctx', tr, ev) →
      ∀ i (hi : i < tr.length), (tr.get ⟨i, hi⟩).success = true →
        i + 1 = tr.length ∧
        lookupKey ctx' (stepKey num) = some (tr.get ⟨i, hi⟩).output := by
  intro r
  induction r with
  | zero =>
    intro a ctx ctx' tr ev h i hi
    simp only [runStepAuxW] at h
    cases h
    simp at hi
  | succ r ih =>
    intro a ctx ctx' tr ev h i hi hsi
    obtain ⟨code, feedback, _, _, hcase⟩ :=
      runStepAuxW_ok_succ extract genO critO query desc num a r ctx ctx' tr ev h
    cases hcase with
    | inl hacc =>
      obtain ⟨hs, hctx, htr, _⟩ := hacc
      subst htr
      have hi0 : i = 0 := by
        have := hi
        simp at this
        omega
      subst hi0
      refine ⟨rfl, ?_⟩
      rw [hctx]
      simp [lookup_setKey_self]
    | inr hrej =>
      obtain ⟨hs, c2, t2, e2, hrec2, hctx, htr, _⟩ := hrej
      subst htr
      cases i with
      | zero => simp at hsi
      | succ j =>
        have hj : j < t2.length := by
          have := hi
          simp at this
          omega
        have := ih (a + 1) _ c2 t2 e2 hrec2 j hj (by simpa using hsi)
        refine ⟨by simpa using this.1, ?_⟩
        rw [hctx]
        simpa using this.2

/-- If no attempt is accepted, the loop exhausts the entire budget and
records the failure sentinel under the step key. -/
theorem runStepAuxW_exhaust
    (extract : String → List String) (genO : GenOracle) (critO : CritOracle)
    (query desc : String) (num : Nat) :
    ∀ r a ctx ctx' tr ev,
      runStepAuxW extract genO critO query desc num a r ctx = .ok (ctx', tr, ev) →
      (∀ rec ∈ tr, rec.success = false) →
      lookupKey ctx' (stepKey num) = some (.str "FAILED_TO_REFINE") ∧ tr.length = r := by
  intro r
  induction r with
  | zero =>
    intro a ctx ctx' tr ev h hall
    simp only [runStepAuxW] at h
    cases h
    exact ⟨lookup_setKey_self _ _ _, rfl⟩
  | succ r ih =>
    intro a ctx ctx' tr ev h hall
    obtain ⟨code, feedback, _, _, hcase⟩ :=
      runStepAuxW_ok_succ extract genO critO query desc num a r ctx ctx' tr ev h
    cases hcase with
    | inl hacc =>
      obtain ⟨_, _, htr, _⟩ := hacc
      exfalso
      have hmem : (⟨a + 1, code, safe_exec code ctx, feedback, true⟩ : AttemptRec) ∈ tr := by
        rw [htr]
        simp
      have := hall _ hmem
      simp at this
    | inr hrej =>
      obtain ⟨_, c2, t2, e2, hrec2, hctx, htr, _⟩ := hrej
      have hall2 : ∀ rec ∈ t2, rec.success = false := by
        intro rec hrec
        exact hall rec (by rw [htr]; exact List.mem_cons_of_mem _ hrec)
      have := ih (a + 1) _ c2 t2 e2 hrec2 hall2
      subst hctx
      exact ⟨this.1, by rw [htr]; simp [this.2]⟩

/-- A critique-call event of one attempt carries that attempt's
number, and only exists when the Outcome was not an execution error. -/
theorem critCall_mem_attemptEvents (x a : Nat) (ctx : Context) (output : Value)
    (h : Event.critCall x ∈ attemptEvents a ctx output) :
    x = a + 1 ∧ isExecError output = false := by
  simp only [attemptEvents] at h
  rcases List.mem_cons.mp h with he | he
  · cases he
  · by_cases ho : isExecError output
    · rw [if_pos ho] at he
      simp at he
    · rw [if_neg ho] at he
      simp at he
      exact ⟨he, by simpa using ho⟩

/-- The only generation-call event of one attempt carries that
attempt's number and the context of that attempt. -/
theorem genCall_mem_attemptEvents (x a : Nat) (c0 ctx : Context) (output : Value)
    (h : Event.genCall x c0 ∈ attemptEvents a ctx output) :
    x = a + 1 ∧ c0 = ctx := by
  simp only [attemptEvents] at h
  rcases List.mem_cons.mp h with he | he
  · cases he
    exact ⟨rfl, rfl⟩
  · by_cases ho : isExecError output
    · rw [if_pos ho] at he
      simp at he
    · rw [if_neg ho] at he
      simp at he

/-- Attempt numbers of records and critique events produced by the
loop lie in `(a, a + r]`, and every critique-call event belongs to an
attempt with a non-error Outcome. -/
theorem runStepAuxW_numbering
    (extract : String → List String) (genO : GenOracle) (critO : CritOracle)
    (query desc : String) (num : Nat) :
    ∀ r a ctx ctx' tr ev,
      runStepAuxW extract genO critO query desc num a r ctx = .ok (ctx', tr, ev) →
      (∀ rec ∈ tr, a + 1 ≤ rec.attempt ∧ rec.attempt ≤ a + r) ∧
      (∀ x, Event.critCall x ∈ ev →
        (a + 1 ≤ x ∧ x ≤ a + r) ∧
        ∃ rec ∈ tr, rec.attempt = x ∧ isExecError rec.output = false) := by
  intro r
  induction r with
  | zero =>
    intro a ctx ctx' tr ev h
    simp only [runStepAuxW] at h
    cases h
    refine ⟨by simp, by simp⟩
  | succ r ih =>
    intro a ctx ctx' tr ev h
    obtain ⟨code, feedback, _, hf, hcase⟩ :=
      runStepAuxW_ok_succ extract genO critO query desc num a r ctx ctx' tr ev h
    cases hcase with
    | inl hacc =>
      obtain ⟨hs, _, htr, hev⟩ := hacc
      subst htr
      subst hev
      refine ⟨?_, ?_⟩
      · intro rec hrec
        simp at hrec
        subst hrec
        dsimp only
        omega
      · intro x hx
        obtain ⟨hx1, hx2⟩ := critCall_mem_attemptEvents x a ctx _ hx
        subst hx1
        exact ⟨by omega,
          ⟨a + 1, code, safe_exec code ctx, feedback, true⟩, by simp, rfl, hx2⟩
    | inr hrej =>
      obtain ⟨hs, c2, t2, e2, hrec2, hctx, htr, hev⟩ := hrej
      subst htr
      subst hev
      obtain ⟨ihtr, ihcrit⟩ := ih (a + 1) _ c2 t2 e2 hrec2
      refine ⟨?_, ?_⟩
      · intro rec hrec
        rcases List.mem_cons.mp hrec with he | he
        · subst he
          dsimp only
          omega
        · have := ihtr rec he
          omega
      · intro x hx
        rcases List.mem_append.mp hx with he | he
        · obtain ⟨hx1, hx2⟩ := critCall_mem_attemptEvents x a ctx _ he
          subst hx1
          exact ⟨by omega,
            ⟨⟨a + 1, code, safe_exec code ctx, feedback, false⟩, by simp, rfl, hx2⟩⟩
        · obtain ⟨hb, rec, hmem, hrec⟩ := ihcrit x he
          exact ⟨by omega, rec, List.mem_cons_of_mem _ hmem, hrec⟩

/-- Execution-error attempts carry locally synthesized feedback and
never cause a critique call. -/
theorem runStepAuxW_exec_error
    (extract : String → List String) (genO : GenOracle) (critO : CritOracle)
    (query desc : String) (num : Nat) :
    ∀ r a ctx ctx' tr ev,
      runStepAuxW extract genO critO query desc num a r ctx = .ok (ctx', tr, ev) →
      ∀ rec ∈ tr, isExecError rec.output = true →
        rec.feedback = "Execution failed: " ++ errText rec.output ∧
        Event.critCall rec.attempt ∉ ev := by
  intro r
  induction r with
  | zero =>
    intro a ctx ctx' tr ev h rec hrec
    simp only [runStepAuxW] at h
    cases h
    simp at hrec
  | succ r ih =>
    intro a ctx ctx' tr ev h rec hrec herr
    obtain ⟨code, feedback, _, hf, hcase⟩ :=
      runStepAuxW_ok_succ extract genO critO query desc num a r ctx ctx' tr ev h
    cases hcase with
    | inl hacc =>
      obtain ⟨hs, _, htr, hev⟩ := hacc
      subst htr
      subst hev
      simp at hrec
      subst hrec
      dsimp only at herr
      refine ⟨?_, ?_⟩
      · rw [attemptFeedback, if_pos herr] at hf
        dsimp only
        exact (Except.ok.inj hf).symm
      · intro hmem
        have := (critCall_mem_attemptEvents _ a ctx _ hmem).2
        rw [herr] at this
        exact Bool.true_eq_false ▸ this
    | inr hrej =>
      obtain ⟨hs, c2, t2, e2, hrec2, hctx, htr, hev⟩ := hrej
      subst htr
      subst hev
      rcases List.mem_cons.mp hrec with he | he
      · subst he
        dsimp only at herr
        refine ⟨?_, ?_⟩
        · rw [attemptFeedback, if_pos herr] at hf
          dsimp only
          exact (Except.ok.inj hf).symm
        · intro hmem
          rcases List.mem_append.mp hmem with h2 | h2
          · have := (critCall_mem_attemptEvents _ a ctx _ h2).2
            rw [herr] at this
            exact absurd this (by simp)
          · obtain ⟨_, ihcrit⟩ :=
              runStepAuxW_numbering extract genO critO query desc num r (a + 1) _ c2 t2 e2 hrec2
            have := (ihcrit _ h2).1
            dsimp only at this
            omega
      · have := ih (a + 1) _ c2 t2 e2 hrec2 rec he herr
        refine ⟨this.1, ?_⟩
        intro hmem
        rcases List.mem_append.mp hmem with h2 | h2
        · obtain ⟨ihtr, _⟩ :=
            runStepAuxW_numbering extract genO critO query desc num r (a + 1) _ c2 t2 e2 hrec2
          have hlo := (ihtr rec he).1
          have := (critCall_mem_attemptEvents _ a ctx _ h2).1
          omega
        · exact this.2 h2

/-- Critique calls happen exactly at attempts whose Outcome is not an
execution error. -/
theorem runStepAuxW_crit_calls
    (extract : String → List String) (genO : GenOracle) (critO : CritOracle)
    (query desc : String) (num : Nat)
    (r a : Nat) (ctx ctx' : Context) (tr : List AttemptRec) (ev : List Event)
    (h : runStepAuxW extract genO critO query desc num a r ctx = .ok (ctx', tr, ev)) :
    ∀ x, Event.critCall x ∈ ev →
      ∃ rec ∈ tr, rec.attempt = x ∧ isExecError rec.output = false := by
  intro x hx
  exact ((runStepAuxW_numbering extract genO critO query desc num r a ctx ctx' tr ev h).2
    x hx).2

/-- The rejection update only overwrites or adds keys. -/
theorem containsKey_rejectionCtx (extract : String → List String)
    (feedback : String) (ctx : Context) (k : String)
    (h : containsKey ctx k = true) :
    containsKey (rejectionCtx extract feedback ctx) k = true := by
  unfold rejectionCtx
  split
  · split
    · exact containsKey_setKey _ _ _ _ (containsKey_setKey _ _ _ _ h)
    · exact containsKey_setKey _ _ _ _ h
  · exact containsKey_setKey _ _ _ _ h

/-- The retry loop never removes context keys. -/
theorem runStepAuxW_keys
    (extract : String → List String) (genO : GenOracle) (critO : CritOracle)
    (query desc : String) (num : Nat) :
    ∀ r a ctx ctx' tr ev,
      runStepAuxW extract genO critO query desc num a r ctx = .ok (ctx', tr, ev) →
      ∀ k, containsKey ctx k = true → containsKey ctx' k = true := by
  intro r
  induction r with
  | zero =>
    intro a ctx ctx' tr ev h k hk
    simp only [runStepAuxW] at h
    cases h
    exact containsKey_setKey _ _ _ _ hk
  | succ r ih =>
    intro a ctx ctx' tr ev h k hk
    obtain ⟨code, feedback, _, _, hcase⟩ :=
      runStepAuxW_ok_succ extract genO critO query desc num a r ctx ctx' tr ev h
    cases hcase with
    | inl hacc =>
      rw [hacc.2.1]
      exact containsKey_setKey _ _ _ _ hk
    | inr hrej =>
      obtain ⟨_, c2, t2, e2, hrec2, hctx, _, _⟩ := hrej
      rw [hctx]
      exact ih (a + 1) _ c2 t2 e2 hrec2 k
        (containsKey_rejectionCtx extract feedback ctx k hk)

/-- Every generation call of the loop receives a context containing at
least the keys of the context the step started from. -/
theorem runStepAuxW_genCall_keys
    (extract : String → List String) (genO : GenOracle) (critO : CritOracle)
    (query desc : String) (num : Nat) :
    ∀ r a ctx ctx' tr ev,
      runStepAuxW extract genO critO query desc num a r ctx = .ok (ctx', tr, ev) →
      ∀ x c0, Event.genCall x c0 ∈ ev →
        ∀ k, containsKey ctx k = true → containsKey c0 k = true := by
  intro r
  induction r with
  | zero =>
    intro a ctx ctx' tr ev h x c0 hx
    simp only [runStepAuxW] at h
    cases h
    simp at hx
  | succ r ih =>
    intro a ctx ctx' tr ev h x c0 hx k hk
    obtain ⟨code, feedback, _, _, hcase⟩ :=
      runStepAuxW_ok_succ extract genO critO query desc num a r ctx ctx' tr ev h
    cases hcase with
    | inl hacc =>
      rw [hacc.2.2.2] at hx
      rw [(genCall_mem_attemptEvents x a c0 ctx _ hx).2]
      exact hk
    | inr hrej =>
      obtain ⟨_, c2, t2, e2, hrec2, _, _, hev⟩ := hrej
      subst hev
      rcases List.mem_append.mp hx with he | he
      · rw [(genCall_mem_attemptEvents x a c0 ctx _ he).2]
        exact hk
      · exact ih (a + 1) _ c2 t2 e2 hrec2 x c0 he k
          (containsKey_rejectionCtx extract feedback ctx k hk)

/-- If both remote collaborators always return (never raise), the
retry loop returns. -/
theorem runStepAuxW_total
    (extract : String → List String) (genO : GenOracle) (critO : CritOracle)
    (query desc : String) (num : Nat)
    (hg : ∀ a d c, ∃ code, genO a d c = .ok code)
    (hc : ∀ a d o q e, ∃ fb, critO a d o q e = .ok fb) :
    ∀ r a ctx, ∃ res, runStepAuxW extract genO critO query desc num a r ctx = .ok res := by
  intro r
  induction r with
  | zero => intro a ctx; exact ⟨_, rfl⟩
  | succ r ih =>
    intro a ctx
    obtain ⟨code, hcode⟩ := hg a desc ctx
    have hfb : ∃ fb, attemptFeedback critO a desc query ctx (safe_exec code ctx) = .ok fb := by
      unfold attemptFeedback
      split
      · exact ⟨_, rfl⟩
      · exact hc a desc (pyStr (safe_exec code ctx)) query (expectedValuesOf ctx)
    obtain ⟨fb, hfb⟩ := hfb
    by_cases hs : pyStartsWith (pyLower fb) "correct" = true
    · refine ⟨(setKey ctx (stepKey num) (safe_exec code ctx),
        [⟨a + 1, code, safe_exec code ctx, fb, true⟩],
        attemptEvents a ctx (safe_exec code ctx)), ?_⟩
      simp only [runStepAuxW, hcode, hfb, hs, if_true]
    · have hs' : pyStartsWith (pyLower fb) "correct" = false := by simpa using hs
      obtain ⟨res2, hres2⟩ := ih (a + 1) (rejectionCtx extract fb ctx)
      obtain ⟨c2, t2, e2⟩ := res2
      refine ⟨(c2, ⟨a + 1, code, safe_exec code ctx, fb, false⟩ :: t2,
        attemptEvents a ctx (safe_exec code ctx) ++ e2), ?_⟩
      simp only [runStepAuxW, hcode, hfb, if_neg hs, hres2, hs']
      simp

/-! ## C2: generation/critique failures inside an attempt -/

/-- C2 counterexample.  The claim says a failure raised by the remote
generation call inside an attempt is caught and folded into the
attempt's feedback and does not propagate as a query-level failure.
In the code there is no handler around `generate_code_for_step` or
`self_critique_output`: at this concrete input the generation failure
of attempt 1 propagates out of the whole step runner as a fatal
failure, and no attempt record or feedback is produced. -/
theorem c2_counterexample :
    runStep (fun _ _ _ => .error "ConnectionError") (fun _ _ _ _ _ => .ok "Correct.")
      "q" "d" 1 [] = .error "ConnectionError" := rfl

/-- C2 as amended: a failure raised by the generation call or by the
critique call during an attempt is *not* caught by the retry loop; it
propagates unchanged out of the step runner as a query-level failure,
exactly like decomposition and synthesis failures. -/
theorem c2_collaborator_failure_propagates :
    (∀ (genO : GenOracle) (critO : CritOracle) (query desc : String) (num : Nat)
        (ctx : Context) (e : String),
      genO 0 desc ctx = .error e →
      runStep genO critO query desc num ctx = .error e) ∧
    (∀ (genO : GenOracle) (critO : CritOracle) (query desc : String) (num : Nat)
        (ctx : Context) (code : Ast) (e : String),
      genO 0 desc ctx = .ok code →
      isExecError (safe_exec code ctx) = false →
      critO 0 desc (pyStr (safe_exec code ctx)) query (expectedValuesOf ctx) = .error e →
      runStep genO critO query desc num ctx = .error e) := by
  constructor
  · intro genO critO query desc num ctx e hgen
    simp only [runStep, MAX_CRITIQUE_ATTEMPTS, runStepAuxW, hgen]
  · intro genO critO query desc num ctx code e hgen herr hcrit
    have hfb : attemptFeedback critO 0 desc query ctx (safe_exec code ctx) = .error e := by
      rw [attemptFeedback, if_neg (by simp [herr]), hcrit]
    simp only [runStep, MAX_CRITIQUE_ATTEMPTS, runStepAuxW, hgen, hfb]

/-- Closed witness for the amended C2: a generation failure on attempt
1 and, in a second run, a critique failure on attempt 1 both abort the
step runner with the raised failure. -/
theorem c2_collaborator_failure_propagates_witness :
    runStep (fun _ _ _ => .error "boom") (fun _ _ _ _ _ => .ok "Correct.")
      "q" "d" 1 [] = .error "boom" ∧
    runStep (fun _ _ _ => .ok (.module [.assign [.name "result" .store] (.constNum 5)]))
      (fun _ _ _ _ _ => .error "boom2") "q" "d" 1 [] = .error "boom2" :=
  ⟨c2_collaborator_failure_propagates.1 _ _ "q" "d" 1 [] "boom" rfl,
   c2_collaborator_failure_propagates.2 _ _ "q" "d" 1 []
     (.module [.assign [.name "result" .store] (.constNum 5)]) "boom2" rfl rfl rfl⟩

/-! ## C3: acceptance test and immediate termination of the loop -/

/-- C3.  An attempt is accepted exactly when its feedback starts,
case-insensitively, with `correct`; an accepted attempt is the last
one of the step (attempts after it never execute, and at most 3
attempts run), and its Outcome is recorded under `step_{num}_result`
in the returned context. -/
theorem c3_accept_iff_correct_prefix
    (genO : GenOracle) (critO : CritOracle) (query desc : String) (num : Nat)
    (ctx ctx' : Context) (tr : List AttemptRec) (ev : List Event)
    (h : runStep genO critO query desc num ctx = .ok (ctx', tr, ev)) :
    (∀ rec ∈ tr, rec.success = pyStartsWith (pyLower rec.feedback) "correct") ∧
    (∀ i (hi : i < tr.length), (tr.get ⟨i, hi⟩).success = true →
      i + 1 = tr.length ∧
      lookupKey ctx' (stepKey num) = some (tr.get ⟨i, hi⟩).output) ∧
    tr.length ≤ MAX_CRITIQUE_ATTEMPTS := by
  rw [runStep] at h
  exact ⟨runStepAuxW_success_flag findNumbers genO critO query desc num
      MAX_CRITIQUE_ATTEMPTS 0 ctx ctx' tr ev h,
    runStepAuxW_accept_last findNumbers genO critO query desc num
      MAX_CRITIQUE_ATTEMPTS 0 ctx ctx' tr ev h,
    runStepAuxW_length findNumbers genO critO query desc num
      MAX_CRITIQUE_ATTEMPTS 0 ctx ctx' tr ev h⟩

/-- Closed witness for C3: a run whose first attempt is rejected
(`"Wrong."`) and whose second is accepted (`"Correct."`): the trace
stops at length 2 and the accepted Outcome is recorded. -/
theorem c3_accept_iff_correct_prefix_witness :
    (∀ rec ∈ [(⟨1, .module [.assign [.name "result" .store] (.constNum 5)],
          .num 5, "Wrong.", false⟩ : AttemptRec),
        ⟨2, .module [.assign [.name "result" .store] (.constNum 5)],
          .num 5, "Correct.", true⟩],
      rec.success = pyStartsWith (pyLower rec.feedback) "correct") ∧
    (∀ i (hi : i < ([(⟨1, .module [.assign [.name "result" .store] (.constNum 5)],
          .num 5, "Wrong.", false⟩ : AttemptRec),
        ⟨2, .module [.assign [.name "result" .store] (.constNum 5)],
          .num 5, "Correct.", true⟩] : List AttemptRec).length),
      (([(⟨1, .module [.assign [.name "result" .store] (.constNum 5)],
          .num 5, "Wrong.", false⟩ : AttemptRec),
        ⟨2, .module [.assign [.name "result" .store] (.constNum 5)],
          .num 5, "Correct.", true⟩] : List AttemptRec).get ⟨i, hi⟩).success = true →
      i + 1 = 2 ∧
      lookupKey [("last_feedback", .str "Wrong."), ("step_1_result", .num 5)] (stepKey 1) =
        some (([(⟨1, .module [.assign [.name "result" .store] (.constNum 5)],
          .num 5, "Wrong.", false⟩ : AttemptRec),
        ⟨2, .module [.assign [.name "result" .store] (.constNum 5)],
          .num 5, "Correct.", true⟩] : List AttemptRec).get ⟨i, hi⟩).output) ∧
    ([(⟨1, .module [.assign [.name "result" .store] (.constNum 5)],
          .num 5, "Wrong.", false⟩ : AttemptRec),
        ⟨2, .module [.assign [.name "result" .store] (.constNum 5)],
          .num 5, "Correct.", true⟩] : List AttemptRec).length ≤ MAX_CRITIQUE_ATTEMPTS :=
  c3_accept_iff_correct_prefix
    (fun _ _ _ => .ok (.module [.assign [.name "result" .store] (.constNum 5)]))
    (fun a _ _ _ _ => if a = 0 then .ok "Wrong." else .ok "Correct.")
    "q" "d" 1 []
    [("last_feedback", .str "Wrong."), ("step_1_result", .num 5)]
    [⟨1, .module [.assign [.name "result" .store] (.constNum 5)], .num 5, "Wrong.", false⟩,
     ⟨2, .module [.assign [.name "result" .store] (.constNum 5)], .num 5, "Correct.", true⟩]
    [.genCall 1 [], .critCall 1, .genCall 2 [("last_feedback", .str "Wrong.")], .critCall 2]
    rfl

/-! ## C6: execution errors skip the critique call -/

/-- C6.  Every attempt whose Outcome is an execution error gets the
locally synthesized feedback `"Execution failed: {diagnostic}"` and
causes no critique call; conversely every critique call recorded in
the event log belongs to an attempt whose Outcome is not an execution
error. -/
theorem c6_exec_error_skips_critique
    (genO : GenOracle) (critO : CritOracle) (query desc : String) (num : Nat)
    (ctx ctx' : Context) (tr : List AttemptRec) (ev : List Event)
    (h : runStep genO critO query desc num ctx = .ok (ctx', tr, ev)) :
    (∀ rec ∈ tr, isExecError rec.output = true →
      rec.feedback = "Execution failed: " ++ errText rec.output ∧
      Event.critCall rec.attempt ∉ ev) ∧
    (∀ x, Event.critCall x ∈ ev →
      ∃ rec ∈ tr, rec.attempt = x ∧ isExecError rec.output = false) := by
  rw [runStep] at h
  exact ⟨runStepAuxW_exec_error findNumbers genO critO query desc num
      MAX_CRITIQUE_ATTEMPTS 0 ctx ctx' tr ev h,
    runStepAuxW_crit_calls findNumbers genO critO query desc num
      MAX_CRITIQUE_ATTEMPTS 0 ctx ctx' tr ev h⟩

/-- Closed witness for C6: attempt 1 produces an execution error (a
rejected `__import__` call), gets local feedback and no critique call
(the only critique event is attempt 2's, whose Outcome is a value). -/
theorem c6_exec_error_skips_critique_witness :
    (∀ rec ∈ [(⟨1, .module [.assign [.name "result" .store]
            (.call (.name "__import__" .load) [.constStr "os"])],
          .str "EXECUTION_ERROR: Disallowed Python syntax: Call",
          "Execution failed: EXECUTION_ERROR: Disallowed Python syntax: Call", false⟩ : AttemptRec),
        ⟨2, .module [.assign [.name "result" .store] (.constNum 5)], .num 5, "Correct.", true⟩],
      isExecError rec.output = true →
        rec.feedback = "Execution failed: " ++ errText rec.output ∧
        Event.critCall rec.attempt ∉
          [Event.genCall 1 [],
           .genCall 2 [("last_feedback",
             .str "Execution failed: EXECUTION_ERROR: Disallowed Python syntax: Call")],
           .critCall 2]) ∧
    (∀ x, Event.critCall x ∈
        [Event.genCall 1 [],
         .genCall 2 [("last_feedback",
           .str "Execution failed: EXECUTION_ERROR: Disallowed Python syntax: Call")],
         .critCall 2] →
      ∃ rec ∈ [(⟨1, .module [.assign [.name "result" .store]
            (.call (.name "__import__" .load) [.constStr "os"])],
          .str "EXECUTION_ERROR: Disallowed Python syntax: Call",
          "Execution failed: EXECUTION_ERROR: Disallowed Python syntax: Call", false⟩ : AttemptRec),
        ⟨2, .module [.assign [.name "result" .store] (.constNum 5)], .num 5, "Correct.", true⟩],
        rec.attempt = x ∧ isExecError rec.output = false) :=
  c6_exec_error_skips_critique
    (fun a _ _ => if a = 0 then
        .ok (.module [.assign [.name "result" .store]
          (.call (.name "__import__" .load) [.constStr "os"])])
      else .ok (.module [.assign [.name "result" .store] (.constNum 5)]))
    (fun _ _ _ _ _ => .ok "Correct.")
    "q" "d" 1 []
    [("last_feedback", .str "Execution failed: EXECUTION_ERROR: Disallowed Python syntax: Call"),
     ("step_1_result", .num 5)]
    [⟨1, .module [.assign [.name "result" .store]
        (.call (.name "__import__" .load) [.constStr "os"])],
      .str "EXECUTION_ERROR: Disallowed Python syntax: Call",
      "Execution failed: EXECUTION_ERROR: Disallowed Python syntax: Call", false⟩,
     ⟨2, .module [.assign [.name "result" .store] (.constNum 5)], .num 5, "Correct.", true⟩]
    [.genCall 1 [],
     .genCall 2 [("last_feedback",
       .str "Execution failed: EXECUTION_ERROR: Disallowed Python syntax: Call")],
     .critCall 2]
    rfl

/-! ## Plan-level invariants -/

/-- The contexts of consecutive step records are threaded: each step
starts from the context the previous step ended with, and the last one
ends at the final context. -/
def Chained : Context → List StepRes → Context → Prop
  | c, [], cF => cF = c
  | c, sr :: rest, cF => sr.ctxBefore = c ∧ Chained sr.ctxAfter rest cF

/-- Per-step key monotonicity: a processed step never removes context
keys, and every generation call inside it sees at least the keys the
step started from. -/
def StepKeysMono (sr : StepRes) : Prop :=
  (∀ k, containsKey sr.ctxBefore k = true → containsKey sr.ctxAfter k = true) ∧
  (∀ x c0, Event.genCall x c0 ∈ sr.events →
    ∀ k, containsKey sr.ctxBefore k = true → containsKey c0 k = true)

theorem runPlanAux_chain (genO : PlanGenOracle) (critO : PlanCritOracle) (query : String) :
    ∀ steps i ctx ctxF rs,
      runPlanAux genO critO query i steps ctx = .ok (ctxF, rs) →
      Chained ctx rs ctxF ∧ rs.length = steps.length ∧ ∀ sr ∈ rs, StepKeysMono sr := by
  intro steps
  induction steps with
  | nil =>
    intro i ctx ctxF rs h
    simp only [runPlanAux] at h
    cases h
    exact ⟨rfl, rfl, by simp⟩
  | cons st rest ih =>
    intro i ctx ctxF rs h
    simp only [runPlanAux] at h
    split at h
    · split at h
      · exact absurd h (by simp)
      · rename_i ctx' tr ev hstep
        split at h
        · exact absurd h (by simp)
        · rename_i hrest
          cases h
          obtain ⟨hch, hlen, hmono⟩ := ih (i + 1) ctx' _ _ hrest
          refine ⟨⟨rfl, hch⟩, by simpa using hlen, ?_⟩
          intro sr hsr
          rcases List.mem_cons.mp hsr with he | he
          · subst he
            constructor
            · intro k hk
              exact runStepAuxW_keys findNumbers _ _ query st.description st.step_num
                MAX_CRITIQUE_ATTEMPTS 0 ctx ctx' tr ev hstep k hk
            · intro x c0 hx k hk
              exact runStepAuxW_genCall_keys findNumbers _ _ query st.description st.step_num
                MAX_CRITIQUE_ATTEMPTS 0 ctx ctx' tr ev hstep x c0 hx k hk
          · exact hmono sr he
    · split at h
      · exact absurd h (by simp)
      · rename_i hrest
        cases h
        obtain ⟨hch, hlen, hmono⟩ := ih (i + 1) ctx _ _ hrest
        refine ⟨⟨rfl, hch⟩, by simpa using hlen, ?_⟩
        intro sr hsr
        rcases List.mem_cons.mp hsr with he | he
        · subst he
          exact ⟨fun k hk => hk, fun x c0 hx => by simp at hx⟩
        · exact hmono sr he

/-- With total collaborators the plan loop returns a record for every
step of the plan. -/
theorem runPlanAux_total (genO : PlanGenOracle) (critO : PlanCritOracle) (query : String)
    (hg : ∀ s a d c, ∃ code, genO s a d c = .ok code)
    (hc : ∀ s a d o q e, ∃ fb, critO s a d o q e = .ok fb) :
    ∀ steps i ctx, ∃ ctxF rs,
      runPlanAux genO critO query i steps ctx = .ok (ctxF, rs) ∧ rs.length = steps.length := by
  intro steps
  induction steps with
  | nil => intro i ctx; exact ⟨ctx, [], rfl, rfl⟩
  | cons st rest ih =>
    intro i ctx
    by_cases hty : (st.type == "calculation" || st.type == "data_lookup") = true
    · obtain ⟨res, hres⟩ := runStepAuxW_total findNumbers (genO i) (critO i)
        query st.description st.step_num (hg i) (hc i) MAX_CRITIQUE_ATTEMPTS 0 ctx
      obtain ⟨ctx', tr, ev⟩ := res
      obtain ⟨ctxF, rs, hrest, hlen⟩ := ih (i + 1) ctx'
      refine ⟨ctxF, ⟨st, ctx, ctx', tr, ev⟩ :: rs, ?_, by simp [hlen]⟩
      simp only [runPlanAux, if_pos hty]
      rw [runStep] at *
      simp only [hres, hrest]
    · obtain ⟨ctxF, rs, hrest, hlen⟩ := ih (i + 1) ctx
      refine ⟨ctxF, ⟨st, ctx, ctx, [], []⟩ :: rs, ?_, by simp [hlen]⟩
      simp only [runPlanAux, if_neg hty]
      simp only [hrest]

/-! ## C4: step exhaustion records the sentinel and the plan continues -/

/-- C4.  (i) A `calculation`/`data_lookup` step none of whose attempts
is accepted exhausts all 3 attempts and records the literal sentinel
`FAILED_TO_REFINE` under `step_{ordinal}_result`.  (ii) Step
exhaustion never aborts the plan: whenever the collaborators return
(the only failure mode of the loop), the Plan Driver processes every
step of the plan and produces one record per step, regardless of any
acceptance. -/
theorem c4_exhaustion_sentinel_plan_continues :
    (∀ (genO : GenOracle) (critO : CritOracle) (query desc : String) (num : Nat)
        (ctx ctx' : Context) (tr : List AttemptRec) (ev : List Event),
      runStep genO critO query desc num ctx = .ok (ctx', tr, ev) →
      (∀ rec ∈ tr, rec.success = false) →
      lookupKey ctx' (stepKey num) = some (.str "FAILED_TO_REFINE") ∧
        tr.length = MAX_CRITIQUE_ATTEMPTS) ∧
    (∀ (genO : PlanGenOracle) (critO : PlanCritOracle) (query : String) (steps : List Step),
      (∀ s a d c, ∃ code, genO s a d c = .ok code) →
      (∀ s a d o q e, ∃ fb, critO s a d o q e = .ok fb) →
      ∃ ctxF rs, runPlanAux genO critO query 0 steps [] = .ok (ctxF, rs) ∧
        rs.length = steps.length) := by
  constructor
  · intro genO critO query desc num ctx ctx' tr ev h hall
    rw [runStep] at h
    exact runStepAuxW_exhaust findNumbers genO critO query desc num
      MAX_CRITIQUE_ATTEMPTS 0 ctx ctx' tr ev h hall
  · intro genO critO query steps hg hc
    exact runPlanAux_total genO critO query hg hc steps 0 []

/-- Closed witness for C4: a step whose 3 attempts are all rejected
(`"Wrong."`) records the sentinel, and a 2-step plan (one calculation,
one `final_synthesis`) with total collaborators is processed in full. -/
theorem c4_exhaustion_sentinel_plan_continues_witness :
    (lookupKey [("last_feedback", .str "Wrong."),
        ("step_2_result", .str "FAILED_TO_REFINE")] (stepKey 2) =
      some (.str "FAILED_TO_REFINE") ∧
      ([(⟨1, .module [.assign [.name "result" .store] (.constNum 5)],
            .num 5, "Wrong.", false⟩ : AttemptRec),
        ⟨2, .module [.assign [.name "result" .store] (.constNum 5)],
            .num 5, "Wrong.", false⟩,
        ⟨3, .module [.assign [.name "result" .store] (.constNum 5)],
            .num 5, "Wrong.", false⟩] : List AttemptRec).length = MAX_CRITIQUE_ATTEMPTS) ∧
    (∃ ctxF rs,
      runPlanAux (fun _ _ _ _ => .ok (.module [.assign [.name "result" .store] (.constNum 5)]))
        (fun _ _ _ _ _ _ => .ok "Correct.") "q" 0
        [⟨1, "calculation", "a"⟩, ⟨2, "final_synthesis", "b"⟩] [] = .ok (ctxF, rs) ∧
      rs.length = 2) := by
  constructor
  · exact c4_exhaustion_sentinel_plan_continues.1
      (fun _ _ _ => .ok (.module [.assign [.name "result" .store] (.constNum 5)]))
      (fun _ _ _ _ _ => .ok "Wrong.") "q" "d" 2 []
      [("last_feedback", .str "Wrong."), ("step_2_result", .str "FAILED_TO_REFINE")]
      [⟨1, .module [.assign [.name "result" .store] (.constNum 5)], .num 5, "Wrong.", false⟩,
       ⟨2, .module [.assign [.name "result" .store] (.constNum 5)], .num 5, "Wrong.", false⟩,
       ⟨3, .module [.assign [.name "result" .store] (.constNum 5)], .num 5, "Wrong.", false⟩]
      [.genCall 1 [], .critCall 1,
       .genCall 2 [("last_feedback", .str "Wrong.")], .critCall 2,
       .genCall 3 [("last_feedback", .str "Wrong.")], .critCall 3]
      rfl (by decide)
  · exact c4_exhaustion_sentinel_plan_continues.2
      (fun _ _ _ _ => .ok (.module [.assign [.name "result" .store] (.constNum 5)]))
      (fun _ _ _ _ _ _ => .ok "Correct.") "q"
      [⟨1, "calculation", "a"⟩, ⟨2, "final_synthesis", "b"⟩]
      (fun _ _ _ _ => ⟨_, rfl⟩) (fun _ _ _ _ _ _ => ⟨_, rfl⟩)

theorem chain_split :
    ∀ (pre : List StepRes) (c : Context) (rest : List StepRes) (cF : Context),
      Chained c (pre ++ rest) cF → ∃ c', Chained c pre c' ∧ Chained c' rest cF := by
  intro pre
  induction pre with
  | nil => intro c rest cF h; exact ⟨c, rfl, h⟩
  | cons sr pre' ih =>
    intro c rest cF h
    obtain ⟨hb, hrest⟩ := h
    obtain ⟨c', h1, h2⟩ := ih sr.ctxAfter rest cF hrest
    exact ⟨c', ⟨hb, h1⟩, h2⟩

theorem chain_propagate (k : String) :
    ∀ (rs : List StepRes) (c cF : Context),
      Chained c rs cF → (∀ sr ∈ rs, StepKeysMono sr) → containsKey c k = true →
      containsKey cF k = true ∧
      ∀ sr ∈ rs, containsKey sr.ctxBefore k = true ∧
        ∀ x c0, Event.genCall x c0 ∈ sr.events → containsKey c0 k = true := by
  intro rs
  induction rs with
  | nil =>
    intro c cF h _ hk
    cases h
    exact ⟨hk, by simp⟩
  | cons sr rest ih =>
    intro c cF h hmono hk
    obtain ⟨hb, hrest⟩ := h
    have hbk : containsKey sr.ctxBefore k = true := hb ▸ hk
    have hsr := hmono sr (List.mem_cons_self _ _)
    have hak : containsKey sr.ctxAfter k = true := hsr.1 k hbk
    obtain ⟨hF, hall⟩ := ih sr.ctxAfter cF hrest
      (fun s hs => hmono s (List.mem_cons_of_mem _ hs)) hak
    refine ⟨hF, ?_⟩
    intro s hs
    rcases List.mem_cons.mp hs with he | he
    · subst he
      exact ⟨hbk, fun x c0 hx => hsr.2 x c0 hx k hbk⟩
    · exact hall s he

/-! ## C10: the transient keys are never removed from the context -/

/-- C10.  Once `last_feedback` / `expected_correction` is present in
the context at the end of a processed step, it is never removed: every
later step starts from a context still containing it (the first later
step starts from exactly the earlier step's final context), every
generation call of every later step receives a context containing it,
and the final context handed to the synthesis collaborator (which is
exactly the returned context) still contains it. -/
theorem c10_transient_keys_persist
    (genO : PlanGenOracle) (critO : PlanCritOracle) (synthO : SynthOracle)
    (query : String) (steps : List Step) (ctxF : Context) (rs : List StepRes) (ans : String)
    (h : runPlan genO critO synthO query steps = .ok (ctxF, rs, ans))
    (k : String) (_hk : k = "last_feedback" ∨ k = "expected_correction")
    (pre : List StepRes) (sr : StepRes) (post : List StepRes)
    (hsplit : rs = pre ++ sr :: post)
    (hset : containsKey sr.ctxAfter k = true) :
    synthO query ctxF = .ok ans ∧
    containsKey ctxF k = true ∧
    (∀ sr₂ ∈ post, containsKey sr₂.ctxBefore k = true ∧
      ∀ x c0, Event.genCall x c0 ∈ sr₂.events → containsKey c0 k = true) ∧
    (∀ sr₂, post.head? = some sr₂ → sr₂.ctxBefore = sr.ctxAfter) := by
  have hpa : runPlanAux genO critO query 0 steps [] = .ok (ctxF, rs) ∧
      synthO query ctxF = .ok ans := by
    simp only [runPlan] at h
    split at h
    · exact absurd h (by simp)
    · rename_i hrun
      split at h
      · exact absurd h (by simp)
      · rename_i hsyn
        cases h
        exact ⟨hrun, hsyn⟩
  obtain ⟨hrun, hsyn⟩ := hpa
  obtain ⟨hch, _, hmono⟩ := runPlanAux_chain genO critO query steps 0 [] ctxF rs hrun
  rw [hsplit] at hch hmono
  obtain ⟨c', _, hrest⟩ := chain_split pre [] (sr :: post) ctxF hch
  obtain ⟨hb, hpost⟩ := hrest
  obtain ⟨hF, hall⟩ := chain_propagate k post sr.ctxAfter ctxF hpost
    (fun s hs => hmono s (by simp [List.mem_append, hs])) hset
  refine ⟨hsyn, hF, hall, ?_⟩
  intro sr₂ hh
  cases post with
  | nil => simp at hh
  | cons s2 r2 =>
    simp at hh
    subst hh
    exact hpost.1

/-- Closed witness for C10: step 1 exhausts its attempts leaving
`last_feedback` in the context; step 2 then starts from exactly that
context, its generation call receives it, and the synthesis context
still contains it. -/
theorem c10_transient_keys_persist_witness :
    (Except.ok "answer" : Except String String) = .ok "answer" ∧
    containsKey [("last_feedback", .str "Wrong."),
      ("step_1_result", .str "FAILED_TO_REFINE"),
      ("step_2_result", .num 5)] "last_feedback" = true ∧
    (∀ sr₂ ∈ [(⟨⟨2, "calculation", "b"⟩,
        [("last_feedback", .str "Wrong."), ("step_1_result", .str "FAILED_TO_REFINE")],
        [("last_feedback", .str "Wrong."), ("step_1_result", .str "FAILED_TO_REFINE"),
          ("step_2_result", .num 5)],
        [⟨1, .module [.assign [.name "result" .store] (.constNum 5)], .num 5, "Correct.", true⟩],
        [.genCall 1 [("last_feedback", .str "Wrong."),
          ("step_1_result", .str "FAILED_TO_REFINE")], .critCall 1]⟩ : StepRes)],
      containsKey sr₂.ctxBefore "last_feedback" = true ∧
      ∀ x c0, Event.genCall x c0 ∈ sr₂.events → containsKey c0 "last_feedback" = true) ∧
    (∀ sr₂, ([(⟨⟨2, "calculation", "b"⟩,
        [("last_feedback", .str "Wrong."), ("step_1_result", .str "FAILED_TO_REFINE")],
        [("last_feedback", .str "Wrong."), ("step_1_result", .str "FAILED_TO_REFINE"),
          ("step_2_result", .num 5)],
        [⟨1, .module [.assign [.name "result" .store] (.constNum 5)], .num 5, "Correct.", true⟩],
        [.genCall 1 [("last_feedback", .str "Wrong."),
          ("step_1_result", .str "FAILED_TO_REFINE")], .critCall 1]⟩ : StepRes)] :
          List StepRes).head? = some sr₂ →
      sr₂.ctxBefore = (⟨⟨1, "calculation", "a"⟩, [],
        [("last_feedback", .str "Wrong."), ("step_1_result", .str "FAILED_TO_REFINE")],
        [⟨1, .module [.assign [.name "result" .store] (.constNum 5)], .num 5, "Wrong.", false⟩,
         ⟨2, .module [.assign [.name "result" .store] (.constNum 5)], .num 5, "Wrong.", false⟩,
         ⟨3, .module [.assign [.name "result" .store] (.constNum 5)], .num 5, "Wrong.", false⟩],
        [.genCall 1 [], .critCall 1,
         .genCall 2 [("last_feedback", .str "Wrong.")], .critCall 2,
         .genCall 3 [("last_feedback", .str "Wrong.")], .critCall 3]⟩ : StepRes).ctxAfter) :=
  c10_transient_keys_persist
    (fun _ _ _ _ => .ok (.module [.assign [.name "result" .store] (.constNum 5)]))
    (fun s _ _ _ _ _ => if s = 0 then .ok "Wrong." else .ok "Correct.")
    (fun _ _ => .ok "answer") "q"
    [⟨1, "calculation", "a"⟩, ⟨2, "calculation", "b"⟩]
    [("last_feedback", .str "Wrong."), ("step_1_result", .str "FAILED_TO_REFINE"),
      ("step_2_result", .num 5)]
    [⟨⟨1, "calculation", "a"⟩, [],
        [("last_feedback", .str "Wrong."), ("step_1_result", .str "FAILED_TO_REFINE")],
        [⟨1, .module [.assign [.name "result" .store] (.constNum 5)], .num 5, "Wrong.", false⟩,
         ⟨2, .module [.assign [.name "result" .store] (.constNum 5)], .num 5, "Wrong.", false⟩,
         ⟨3, .module [.assign [.name "result" .store] (.constNum 5)], .num 5, "Wrong.", false⟩],
        [.genCall 1 [], .critCall 1,
         .genCall 2 [("last_feedback", .str "Wrong.")], .critCall 2,
         .genCall 3 [("last_feedback", .str "Wrong.")], .critCall 3]⟩,
     ⟨⟨2, "calculation", "b"⟩,
        [("last_feedback", .str "Wrong."), ("step_1_result", .str "FAILED_TO_REFINE")],
        [("last_feedback", .str "Wrong."), ("step_1_result", .str "FAILED_TO_REFINE"),
          ("step_2_result", .num 5)],
        [⟨1, .module [.assign [.name "result" .store] (.constNum 5)], .num 5, "Correct.", true⟩],
        [.genCall 1 [("last_feedback", .str "Wrong."),
          ("step_1_result", .str "FAILED_TO_REFINE")], .critCall 1]⟩]
    "answer" rfl "last_feedback" (Or.inl rfl)
    []
    ⟨⟨1, "calculation", "a"⟩, [],
        [("last_feedback", .str "Wrong."), ("step_1_result", .str "FAILED_TO_REFINE")],
        [⟨1, .module [.assign [.name "result" .store] (.constNum 5)], .num 5, "Wrong.", false⟩,
         ⟨2, .module [.assign [.name "result" .store] (.constNum 5)], .num 5, "Wrong.", false⟩,
         ⟨3, .module [.assign [.name "result" .store] (.constNum 5)], .num 5, "Wrong.", false⟩],
        [.genCall 1 [], .critCall 1,
         .genCall 2 [("last_feedback", .str "Wrong.")], .critCall 2,
         .genCall 3 [("last_feedback", .str "Wrong.")], .critCall 3]⟩
    [⟨⟨2, "calculation", "b"⟩,
        [("last_feedback", .str "Wrong."), ("step_1_result", .str "FAILED_TO_REFINE")],
        [("last_feedback", .str "Wrong."), ("step_1_result", .str "FAILED_TO_REFINE"),
          ("step_2_result", .num 5)],
        [⟨1, .module [.assign [.name "result" .store] (.constNum 5)], .num 5, "Correct.", true⟩],
        [.genCall 1 [("last_feedback", .str "Wrong."),
          ("step_1_result", .str "FAILED_TO_REFINE")], .critCall 1]⟩]
    rfl (by decide)

/-! ## C5: numeric-correction extraction, blocking vs. streaming -/

/-- C5 (code bug in the streaming loop).  On the feedback
`"Incorrect: should be 42 not 41.5"` the blocking loops extract the
last numeric token `41.5` and store `expected_correction = 41.5`
(after 3 rejected attempts the key still holds it); the streaming loop
`solve_query_stream`, whose raw-string regex `r'\\d+(?:\\.\\d+)?'`
matches only literal-backslash sequences, extracts nothing and never
stores `expected_correction`.  The claim holds for the blocking
variants and fails on the streaming variant. -/
theorem c5_streaming_regex_divergence :
    findNumbers "Incorrect: should be 42 not 41.5" = ["42", "41.5"] ∧
    (findNumbers "Incorrect: should be 42 not 41.5").getLast? = some "41.5" ∧
    pyFloat "41.5" = 83 / 2 ∧
    findNumbersStream "Incorrect: should be 42 not 41.5" = [] ∧
    (∃ ctx' tr ev,
      runStep (fun _ _ _ => .ok (.module [.assign [.name "result" .store] (.constNum 5)]))
        (fun _ _ _ _ _ => .ok "Incorrect: should be 42 not 41.5")
        "q" "d" 1 [] = .ok (ctx', tr, ev) ∧
      lookupKey ctx' "expected_correction" = some (.num (pyFloat "41.5"))) ∧
    (∃ ctx' tr ev,
      runStepStream (fun _ _ _ => .ok (.module [.assign [.name "result" .store] (.constNum 5)]))
        (fun _ _ _ _ _ => .ok "Incorrect: should be 42 not 41.5")
        "q" "d" 1 [] = .ok (ctx', tr, ev) ∧
      lookupKey ctx' "expected_correction" = Option.none) := by
  refine ⟨by decide, by decide, ?_, by decide, ?_, ?_⟩
  · have h : pyFloat "41.5" = ((41 : ℕ) : ℚ) + ((5 : ℕ) : ℚ) / (10 : ℚ) ^ (1 : ℕ) := rfl
    rw [h]
    norm_num
  · exact ⟨[("last_feedback", .str "Incorrect: should be 42 not 41.5"),
      ("expected_correction", .num (pyFloat "41.5")),
      ("step_1_result", .str "FAILED_TO_REFINE")],
      [⟨1, .module [.assign [.name "result" .store] (.constNum 5)], .num 5,
        "Incorrect: should be 42 not 41.5", false⟩,
       ⟨2, .module [.assign [.name "result" .store] (.constNum 5)], .num 5,
        "Incorrect: should be 42 not 41.5", false⟩,
       ⟨3, .module [.assign [.name "result" .store] (.constNum 5)], .num 5,
        "Incorrect: should be 42 not 41.5", false⟩],
      [.genCall 1 [], .critCall 1,
       .genCall 2 [("last_feedback", .str "Incorrect: should be 42 not 41.5"),
         ("expected_correction", .num (pyFloat "41.5"))], .critCall 2,
       .genCall 3 [("last_feedback", .str "Incorrect: should be 42 not 41.5"),
         ("expected_correction", .num (pyFloat "41.5"))], .critCall 3],
      rfl, rfl⟩
  · exact ⟨[("last_feedback", .str "Incorrect: should be 42 not 41.5"),
      ("step_1_result", .str "FAILED_TO_REFINE")],
      [⟨1, .module [.assign [.name "result" .store] (.constNum 5)], .num 5,
        "Incorrect: should be 42 not 41.5", false⟩,
       ⟨2, .module [.assign [.name "result" .store] (.constNum 5)], .num 5,
        "Incorrect: should be 42 not 41.5", false⟩,
       ⟨3, .module [.assign [.name "result" .store] (.constNum 5)], .num 5,
        "Incorrect: should be 42 not 41.5", false⟩],
      [.genCall 1 [], .critCall 1,
       .genCall 2 [("last_feedback", .str "Incorrect: should be 42 not 41.5")], .critCall 2,
       .genCall 3 [("last_feedback", .str "Incorrect: should be 42 not 41.5")], .critCall 3],
      rfl, rfl⟩

/-! ## C9: the expected-values hint

Spec-side definitions, following the claim's words: the subset of
context entries whose key literally matches `step_{n}_result` (`n` a
nonempty digit run) and whose value is not the failure sentinel,
re-keyed by stripping the `_result` suffix, assembled as a mapping. -/

/-- Whether a key matches the pattern `step_{n}_result`. -/
def specIsStepResultKey (k : String) : Bool :=
  strStarts k.data "step_".data &&
  decide (12 ≤ k.data.length) &&
  decide (k.data.drop (k.data.length - 7) = "_result".data) &&
  decide (((k.data.drop 5).take (k.data.length - 12)) ≠ []) &&
  ((k.data.drop 5).take (k.data.length - 12)).all Char.isDigit

/-- `step_{n}_result` with the `_result` suffix stripped. -/
def specStrip (k : String) : String := ⟨k.data.take (k.data.length - 7)⟩

/-- The expected-values hint as the claim describes it. -/
def specHint (ctx : Context) : List (String × Value) :=
  ctx.foldl
    (fun acc kv =>
      if specIsStepResultKey kv.1 && !(kv.2 == Value.str "FAILED_TO_REFINE") then
        setKey acc (specStrip kv.1) kv.2
      else acc)
    []

/-- The well-formed key shapes occurring in contexts built by the
orchestration: the two transient keys, and step-result keys with a
numeric ordinal. -/
def WellFormedKeys (ctx : Context) : Prop :=
  ∀ kv ∈ ctx, kv.1 = "last_feedback" ∨ kv.1 = "expected_correction" ∨
    ∃ s : List Char, s ≠ [] ∧ (∀ c ∈ s, c.isDigit = true) ∧
      kv.1.data = "step_".data ++ s ++ "_result".data

theorem strStarts_self (l : List Char) : strStarts l l = true := by
  have h := strStarts_append l []
  rwa [List.append_nil] at h

theorem digit_ne (c x : Char) (hc : c.isDigit = true) (hx : x.isDigit = false) :
    (c == x) = false := by
  rw [beq_eq_false_iff_ne]
  intro he
  rw [he] at hc
  rw [hc] at hx
  exact Bool.true_eq_false ▸ hx

theorem pyReplaceL_skip (pat : List Char) (rep : List Char) (p : Char) (ps : List Char)
    (hpat : pat = p :: ps) :
    ∀ l rest, (∀ c ∈ l, (c == p) = false) →
      pyReplaceL (l ++ rest) pat rep = l ++ pyReplaceL rest pat rep := by
  intro l
  induction l with
  | nil => intro rest _; simp
  | cons c cs ih =>
    intro rest hl
    subst hpat
    have hc : (c == p) = false := hl c (List.mem_cons_self _ _)
    show pyReplaceL (c :: (cs ++ rest)) (p :: ps) rep = c :: (cs ++ pyReplaceL rest (p :: ps) rep)
    rw [pyReplaceL]
    have hcond : strStarts (c :: (cs ++ rest)) (p :: ps) = false := by
      simp only [strStarts, hc, Bool.false_and]
    rw [if_neg (by rw [hcond]; exact Bool.false_ne_true)]
    have := ih rest (fun x hx => hl x (List.mem_cons_of_mem _ hx))
    rw [this]

theorem pyReplaceL_exact (pat : List Char) (hne : pat ≠ []) :
    pyReplaceL pat pat [] = [] := by
  cases pat with
  | nil => exact absurd rfl hne
  | cons p ps =>
    rw [pyReplaceL]
    rw [if_pos (by rw [strStarts_self])]
    have hdrop : List.drop (p :: ps).length (p :: ps) = [] := by
      simp
    rw [hdrop]
    simp [pyReplaceL]

/-- `("step_" ++ n ++ "_result").replace("_result", "") = "step_" ++ n`
when `n` is a nonempty digit run. -/
theorem pyReplace_step_key (s : List Char) (hs0 : s ≠ [])
    (hs : ∀ c ∈ s, c.isDigit = true) :
    pyReplaceL ("step_".data ++ s ++ "_result".data) "_result".data [] =
      "step_".data ++ s := by
  have hsplit : "step_".data ++ s ++ "_result".data =
      ['s', 't', 'e', 'p'] ++ ('_' :: (s ++ "_result".data)) := by
    show ("step_" : String).data ++ s ++ "_result".data = _
    rw [show ("step_" : String).data = ['s', 't', 'e', 'p', '_'] from rfl]
    simp
  rw [hsplit]
  rw [pyReplaceL_skip "_result".data [] '_' "result".data rfl _ _
    (by intro c hc; fin_cases hc <;> decide)]
  have hmid : pyReplaceL ('_' :: (s ++ "_result".data)) "_result".data [] =
      '_' :: pyReplaceL (s ++ "_result".data) "_result".data [] := by
    rw [show ("_result" : String).data = '_' :: ("result" : String).data from rfl]
    rw [pyReplaceL]
    have hcond : strStarts ('_' :: (s ++ "_result".data)) ('_' :: "result".data) = false := by
      cases s with
      | nil => exact absurd rfl hs0
      | cons c cs =>
        have hc : c.isDigit = true := hs c (List.mem_cons_self _ _)
        have hcr : (c == 'r') = false := digit_ne c 'r' hc (by decide)
        have h1 : strStarts ('_' :: (c :: cs ++ "_result".data)) ('_' :: "result".data) =
            ((('_' : Char) == '_') &&
              strStarts (c :: cs ++ "_result".data) ("result".data)) := rfl
        have h2 : strStarts (c :: cs ++ "_result".data) ("result".data) =
            ((c == 'r') && strStarts (cs ++ "_result".data) ("esult".data)) := rfl
        rw [h1, h2, hcr]
        simp
    rw [if_neg (by rw [hcond]; exact Bool.false_ne_true)]
  rw [hmid]
  rw [pyReplaceL_skip "_result".data [] '_' "result".data rfl s "_result".data
    (by intro c hc; exact digit_ne c '_' (hs c hc) (by decide))]
  rw [pyReplaceL_exact "_result".data (by decide)]
  rw [show ("step_" : String).data = ['s', 't', 'e', 'p', '_'] from rfl]
  simp

/-- Pointwise agreement of the code's filter/re-key with the spec's on
a step-shaped key. -/
theorem stepKey_pointwise (k : String) (s : List Char) (hs0 : s ≠ [])
    (hs : ∀ c ∈ s, c.isDigit = true)
    (hk : k.data = "step_".data ++ s ++ "_result".data) :
    pyStartsWith k "step_" = true ∧
    pyEndsWith k "_result" = true ∧
    specIsStepResultKey k = true ∧
    pyReplace k "_result" "" = specStrip k ∧
    strStarts (pyReplace k "_result" "").data "step_".data = true := by
  have hlen5 : ("step_".data : List Char).length = 5 := rfl
  have hlen7 : ("_result".data : List Char).length = 7 := rfl
  have hlen : k.data.length = 5 + s.length + 7 := by
    rw [hk, List.length_append, List.length_append, hlen5, hlen7]
  have hs1 : 1 ≤ s.length := by
    cases s with
    | nil => exact absurd rfl hs0
    | cons a l => simp
  have hpre : pyStartsWith k "step_" = true := by
    rw [pyStartsWith, hk, List.append_assoc]
    exact strStarts_append _ _
  have hsuf : pyEndsWith k "_result" = true := by
    rw [pyEndsWith, hk]
    rw [List.reverse_append, List.reverse_append]
    exact strStarts_append _ _
  have hdropk : k.data.drop (k.data.length - 7) = "_result".data := by
    rw [hlen, hk]
    have h1 : 5 + s.length + 7 - 7 = ("step_".data ++ s).length := by
      rw [List.length_append, hlen5]
      omega
    rw [h1, List.drop_left]
  have hmid : (k.data.drop 5).take (k.data.length - 12) = s := by
    rw [hlen, hk]
    have h5 : ("step_".data ++ s ++ "_result".data).drop 5 = s ++ "_result".data := by
      rw [List.append_assoc]
      rw [show (5 : Nat) = ("step_".data : List Char).length from rfl]
      exact List.drop_left _ _
    rw [h5]
    have h12 : 5 + s.length + 7 - 12 = s.length := by omega
    rw [h12]
    exact List.take_left _ _
  have hspec : specIsStepResultKey k = true := by
    rw [specIsStepResultKey]
    rw [show strStarts k.data ("step_".data : List Char) = true from hpre, hdropk, hmid]
    have h12 : 12 ≤ k.data.length := by omega
    have h12b : 12 ≤ k.length := h12
    simp [h12, h12b, hs0, List.all_eq_true.mpr hs]
  have hstrip : pyReplace k "_result" "" = specStrip k := by
    rw [pyReplace, specStrip]
    have h1 : pyReplaceL k.data "_result".data "".data = "step_".data ++ s := by
      rw [hk, show ("" : String).data = [] from rfl]
      exact pyReplace_step_key s hs0 hs
    have h2 : k.data.take (k.data.length - 7) = "step_".data ++ s := by
      rw [hlen, hk]
      have h3 : 5 + s.length + 7 - 7 = ("step_".data ++ s).length := by
        rw [List.length_append, hlen5]
        omega
      rw [h3, List.take_left]
    rw [h1, h2]
  refine ⟨hpre, hsuf, hspec, hstrip, ?_⟩
  rw [hstrip, specStrip]
  have h2 : k.data.take (k.data.length - 7) = "step_".data ++ s := by
    rw [hlen, hk]
    have h3 : 5 + s.length + 7 - 7 = ("step_".data ++ s).length := by
      rw [List.length_append, hlen5]
      omega
    rw [h3, List.take_left]
  show strStarts (k.data.take (k.data.length - 7)) "step_".data = true
  rw [h2]
  exact strStarts_append _ _

theorem transient_fails_filters (k : String)
    (hk : k = "last_feedback" ∨ k = "expected_correction") :
    pyStartsWith k "step_" = false ∧ specIsStepResultKey k = false := by
  rcases hk with h | h <;> subst h <;> exact ⟨by decide, by decide⟩

/-- The per-entry actions of the code's hint builder and the spec's
agree on every well-formed key. -/
theorem hint_step_agree (kv : String × Value)
    (hkv : kv.1 = "last_feedback" ∨ kv.1 = "expected_correction" ∨
      ∃ s : List Char, s ≠ [] ∧ (∀ c ∈ s, c.isDigit = true) ∧
        kv.1.data = "step_".data ++ s ++ "_result".data)
    (acc : Context) :
    (if pyStartsWith kv.1 "step_" && pyEndsWith kv.1 "_result" &&
        !(kv.2 == Value.str "FAILED_TO_REFINE") then
      setKey acc (pyReplace kv.1 "_result" "") kv.2
    else acc) =
    (if specIsStepResultKey kv.1 && !(kv.2 == Value.str "FAILED_TO_REFINE") then
      setKey acc (specStrip kv.1) kv.2
    else acc) := by
  rcases hkv with h | h | ⟨s, hs0, hs, hk⟩
  · obtain ⟨h1, h2⟩ := transient_fails_filters kv.1 (Or.inl h)
    simp [h1, h2]
  · obtain ⟨h1, h2⟩ := transient_fails_filters kv.1 (Or.inr h)
    simp [h1, h2]
  · obtain ⟨hpre, hsuf, hspec, hstrip, _⟩ := stepKey_pointwise kv.1 s hs0 hs hk
    rw [hpre, hsuf, hspec, hstrip]
    simp

theorem hint_fold_agree :
    ∀ (ctx : Context), WellFormedKeys ctx → ∀ acc : Context,
      ctx.foldl
        (fun acc kv =>
          if pyStartsWith kv.1 "step_" && pyEndsWith kv.1 "_result" &&
              !(kv.2 == Value.str "FAILED_TO_REFINE") then
            setKey acc (pyReplace kv.1 "_result" "") kv.2
          else acc) acc =
      ctx.foldl
        (fun acc kv =>
          if specIsStepResultKey kv.1 && !(kv.2 == Value.str "FAILED_TO_REFINE") then
            setKey acc (specStrip kv.1) kv.2
          else acc) acc := by
  intro ctx
  induction ctx with
  | nil => intro _ acc; rfl
  | cons kv rest ih =>
    intro hkeys acc
    rw [List.foldl_cons, List.foldl_cons]
    rw [hint_step_agree kv (hkeys kv (List.mem_cons_self _ _)) acc]
    exact ih (fun x hx => hkeys x (List.mem_cons_of_mem _ hx)) _

theorem mem_setKey (k : String) (v : Value) :
    ∀ (acc : Context) (p : String × Value), p ∈ setKey acc k v → p ∈ acc ∨ p.1 = k := by
  intro acc
  induction acc with
  | nil =>
    intro p hp
    simp only [setKey, List.mem_singleton] at hp
    right
    rw [hp]
  | cons kv rest ih =>
    intro p hp
    by_cases he : kv.1 = k
    · simp only [setKey, if_pos he] at hp
      rcases List.mem_cons.mp hp with h1 | h1
      · right; rw [h1]
      · exact Or.inl (List.mem_cons_of_mem _ h1)
    · simp only [setKey, if_neg he] at hp
      rcases List.mem_cons.mp hp with h1 | h1
      · exact Or.inl (h1 ▸ List.mem_cons_self _ _)
      · rcases ih p h1 with h2 | h2
        · exact Or.inl (List.mem_cons_of_mem _ h2)
        · exact Or.inr h2

/-- Keys of the code's hint always carry the `step_` prefix. -/
theorem hint_keys_step :
    ∀ (ctx : Context), WellFormedKeys ctx → ∀ acc : Context,
      (∀ p ∈ acc, strStarts p.1.data "step_".data = true) →
      ∀ p ∈ ctx.foldl
        (fun acc kv =>
          if pyStartsWith kv.1 "step_" && pyEndsWith kv.1 "_result" &&
              !(kv.2 == Value.str "FAILED_TO_REFINE") then
            setKey acc (pyReplace kv.1 "_result" "") kv.2
          else acc) acc,
        strStarts p.1.data "step_".data = true := by
  intro ctx
  induction ctx with
  | nil => intro _ acc hacc p hp; exact hacc p hp
  | cons kv rest ih =>
    intro hkeys acc hacc p hp
    rw [List.foldl_cons] at hp
    refine ih (fun x hx => hkeys x (List.mem_cons_of_mem _ hx)) _ ?_ p hp
    intro q hq
    split at hq
    · rcases mem_setKey _ _ _ q hq with h1 | h1
      · exact hacc q h1
      · rcases hkeys kv (List.mem_cons_self _ _) with h | h | ⟨s, hs0, hs, hk⟩
        · rename_i hcond
          rw [(transient_fails_filters kv.1 (Or.inl h)).1] at hcond
          simp at hcond
        · rename_i hcond
          rw [(transient_fails_filters kv.1 (Or.inr h)).1] at hcond
          simp at hcond
        · obtain ⟨_, _, _, _, hsp⟩ := stepKey_pointwise kv.1 s hs0 hs hk
          rw [h1]
          exact hsp
    · exact hacc q hq

/-- C9.  For contexts whose keys have the shapes the orchestration
produces, the expected-values hint is exactly the claim's description:
the entries whose key matches `step_{n}_result` with a non-sentinel
value, re-keyed by stripping the `_result` suffix; in particular the
transient keys `last_feedback` and `expected_correction` never appear
in the hint. -/
theorem c9_expected_values_hint (ctx : Context) (hkeys : WellFormedKeys ctx) :
    expectedValuesOf ctx = specHint ctx ∧
    ∀ p ∈ expectedValuesOf ctx, p.1 ≠ "last_feedback" ∧ p.1 ≠ "expected_correction" := by
  constructor
  · exact hint_fold_agree ctx hkeys []
  · intro p hp
    have hstep : strStarts p.1.data "step_".data = true :=
      hint_keys_step ctx hkeys [] (by simp) p hp
    constructor
    · intro he
      rw [he] at hstep
      exact absurd hstep (by decide)
    · intro he
      rw [he] at hstep
      exact absurd hstep (by decide)

/-- Closed witness for C9: a context holding one trusted result, one
failed result, and the two transient keys; the hint is exactly
`{step_1: 14}`. -/
theorem c9_expected_values_hint_witness :
    (expectedValuesOf [("step_1_result", .num 14), ("last_feedback", .str "x"),
        ("step_2_result", .str "FAILED_TO_REFINE"), ("expected_correction", .num 3)] =
      specHint [("step_1_result", .num 14), ("last_feedback", .str "x"),
        ("step_2_result", .str "FAILED_TO_REFINE"), ("expected_correction", .num 3)]) ∧
    ∀ p ∈ expectedValuesOf [("step_1_result", .num 14), ("last_feedback", .str "x"),
        ("step_2_result", .str "FAILED_TO_REFINE"), ("expected_correction", .num 3)],
      p.1 ≠ "last_feedback" ∧ p.1 ≠ "expected_correction" := by
  refine c9_expected_values_hint _ ?_
  intro kv hkv
  simp only [List.mem_cons, List.mem_singleton] at hkv
  rcases hkv with h | h | h | h | h
  · rw [h]
    exact Or.inr (Or.inr ⟨['1'], by simp, by decide, by decide⟩)
  · rw [h]
    exact Or.inl rfl
  · rw [h]
    exact Or.inr (Or.inr ⟨['2'], by simp, by decide, by decide⟩)
  · rw [h]
    exact Or.inr (Or.inl rfl)
  · exact absurd h (by simp)

end LampReasoning
